import Mathlib

/-!
Verification of the memory-vault entity-extraction / deduplication /
incremental-processing pipeline, the graph renderer's viewport culling and the
search engine's fuzzy matching.

The JavaScript sources are shallowly embedded: JS `Map`s become insertion-ordered
lists (`Map` iteration order is insertion order), JS numbers used as timestamps
and coordinates become `ℚ`, JS string operations become the corresponding
operations on `String`/`List Char`, and the `Date.now()`/`Math.random()` id nonce
becomes a natural-number counter threaded through a run.
-/

set_option maxHeartbeats 1000000

namespace MemoryVault

/-- The fixed closed set of entity types. -/
inductive EntityType where
  | person
  | project
  | knowledge
  | question
  | thought
  | pattern
deriving DecidableEq, Repr

/-- Entity ids. The JS id string is
`` `${type}_${key}_${Date.now()}_${random}` ``; the ids are only ever compared
for equality and stored, so they are modelled as a structured triple, with the
`Date.now()`/`Math.random()` part modelled as a `Nat` nonce drawn from a
counter threaded through a processing run. -/
structure EntityId where
  typ : EntityType
  key : String
  nonce : Nat
deriving DecidableEq, Repr

/-! ## Levenshtein distance

Reference definition, plus the two identical dynamic-programming
implementations from `MemoryProcessor.levenshteinDistance` and
`SearchEngine.levenshteinDistance`. -/

/-- Reference recursive definition of the Levenshtein edit distance with unit
cost for insertion, deletion and substitution. -/
def levRef : List Char → List Char → Nat
  | [], t => t.length
  | s, [] => s.length
  | a :: s, b :: t =>
    min (levRef s (b :: t) + 1)
      (min (levRef (a :: s) t + 1) (levRef s t + (if a = b then 0 else 1)))
termination_by s t => s.length + t.length

namespace MemoryProcessor

/-- `matrix[i][j]` of the JS `MemoryProcessor.levenshteinDistance` dynamic
program, with a structural fuel argument (`fuel ≥ i + j` always suffices, see
`levMatAux_fuel`): row/column `0` hold the base values `i`/`j`, and the inner
cells follow the JS recurrence `min(matrix[i-1][j]+1, matrix[i][j-1]+1,
matrix[i-1][j-1]+cost)` with `cost` from `str1[i-1]`/`str2[j-1]` (always read
in bounds, modelled with `getD`). -/
def levMatAux (s1 s2 : List Char) : Nat → Nat → Nat → Nat
  | _, 0, j => j
  | _, i + 1, 0 => i + 1
  | 0, _ + 1, _ + 1 => 0
  | fuel + 1, i + 1, j + 1 =>
    min (levMatAux s1 s2 fuel i (j + 1) + 1)
      (min (levMatAux s1 s2 fuel (i + 1) j + 1)
        (levMatAux s1 s2 fuel i j + (if s1.getD i ' ' = s2.getD j ' ' then 0 else 1)))

def levMat (s1 s2 : List Char) (i j : Nat) : Nat :=
  levMatAux s1 s2 (i + j) i j

/-- JS `MemoryProcessor.levenshteinDistance(str1, str2)`. -/
def levenshteinDistance (str1 str2 : String) : Nat :=
  let len1 := str1.length
  let len2 := str2.length
  if len1 = 0 then len2
  else if len2 = 0 then len1
  else levMat str1.toList str2.toList len1 len2

end MemoryProcessor

namespace SearchEngine

/-- `matrix[i][j]` of the JS `SearchEngine.levenshteinDistance` dynamic
program (textually identical to the processor's implementation). -/
def levMatAux (s1 s2 : List Char) : Nat → Nat → Nat → Nat
  | _, 0, j => j
  | _, i + 1, 0 => i + 1
  | 0, _ + 1, _ + 1 => 0
  | fuel + 1, i + 1, j + 1 =>
    min (levMatAux s1 s2 fuel i (j + 1) + 1)
      (min (levMatAux s1 s2 fuel (i + 1) j + 1)
        (levMatAux s1 s2 fuel i j + (if s1.getD i ' ' = s2.getD j ' ' then 0 else 1)))

def levMat (s1 s2 : List Char) (i j : Nat) : Nat :=
  levMatAux s1 s2 (i + j) i j

/-- JS `SearchEngine.levenshteinDistance(str1, str2)`. -/
def levenshteinDistance (str1 str2 : String) : Nat :=
  let len1 := str1.length
  let len2 := str2.length
  if len1 = 0 then len2
  else if len2 = 0 then len1
  else levMat str1.toList str2.toList len1 len2

end SearchEngine

/-! ## JS string helpers -/

/-- JS `\w` word characters (ASCII `[A-Za-z0-9_]`). -/
def isWordChar (c : Char) : Bool :=
  ('a' ≤ c && c ≤ 'z') || ('A' ≤ c && c ≤ 'Z') || ('0' ≤ c && c ≤ '9') || c = '_'

/-- JS `\s` whitespace characters (ASCII subset, which is all the sources use). -/
def isSpaceChar (c : Char) : Bool :=
  c = ' ' || c = '\t' || c = '\n' || c = '\r' || c = '\x0b' || c = '\x0c'

/-- JS `String.prototype.toLowerCase` (ASCII semantics). -/
def jsToLower (s : String) : String :=
  String.mk (s.toList.map Char.toLower)

/-- JS `String.prototype.trim` (strip whitespace at both ends). -/
def jsTrim (s : String) : String :=
  String.mk (((s.toList.dropWhile isSpaceChar).reverse.dropWhile
    isSpaceChar).reverse)

/-- JS falsy-aware `a || b` for an optional string `a` (both `undefined` and
`""` are falsy, falling through to `b`). -/
def jsOrStr (a : Option String) (b : String) : String :=
  match a with
  | some s => if s.isEmpty then b else s
  | none => b

/-- JS falsy-aware `a || b` for optional numbers (`undefined` and `0` are
falsy). -/
def jsOrNum (a : Option ℚ) (b : ℚ) : ℚ :=
  match a with
  | some q => if q = 0 then b else q
  | none => b

/-! ## Entity model -/

/-- An entity record as built by `MemoryProcessor.getOrCreateEntity` and
mutated by `processConversation` / `filterSparseEntities` /
`computeRelationships`. `metadata.normalizedKey` and `metadata.context` are
inlined as the `normalizedKey` and `context` fields. -/
structure Entity where
  id : EntityId
  type : EntityType
  name : String
  description : String
  firstSeen : ℚ
  lastSeen : ℚ
  occurrences : Nat
  conversations : List String
  links : List EntityId
  normalizedKey : String
  context : String
deriving DecidableEq, Repr

/-- A candidate entity produced by the extractors: `{type, name, description?,
context}` (people/projects carry no `description`). -/
structure Extracted where
  type : EntityType
  name : String
  description : Option String
  context : String
deriving DecidableEq, Repr

/-- JS `Map.prototype.get` on the live entity map (insertion-ordered list). -/
def entitiesGet (entities : List Entity) (id : EntityId) : Option Entity :=
  entities.find? (fun e => e.id == id)

/-- JS `Map.prototype.set` on the live entity map: replaces in place if the key
is present (keeping iteration order), otherwise appends. -/
def mapSet (entities : List Entity) (e : Entity) : List Entity :=
  if entities.any (fun x => x.id == e.id) then
    entities.map (fun x => if x.id == e.id then e else x)
  else entities ++ [e]

namespace MemoryProcessor

/-- JS `MemoryProcessor.normalizeEntityName(name)`:
`name.toLowerCase().trim().replace(/[^\w\s]/g, '')`. -/
def normalizeEntityName (name : String) : String :=
  String.mk ((jsTrim (jsToLower name)).toList.filter
    (fun c => isWordChar c || isSpaceChar c))

/-- JS `MemoryProcessor.findExistingEntity(normalizedKey, type)`: first an
exact scan over the live entity map, then (only for keys longer than 5) a
fuzzy scan accepting edit distance ≤ 2; each scan returns the first hit in map
iteration order. -/
def findExistingEntity (entities : List Entity) (normalizedKey : String)
    (type : EntityType) : Option EntityId :=
  match entities.find? (fun e => e.type == type && e.normalizedKey == normalizedKey) with
  | some e => some e.id
  | none =>
    if normalizedKey.length > 5 then
      (entities.find? (fun e => e.type == type &&
        decide (levenshteinDistance e.normalizedKey normalizedKey ≤ 2))).map
        (fun e => e.id)
    else none

/-- The entity record freshly created by `getOrCreateEntity` when no existing
entity matches. -/
def mkNewEntity (extracted : Extracted) (key : String) (timestamp : ℚ)
    (counter : Nat) : Entity where
  id := ⟨extracted.type, key, counter⟩
  type := extracted.type
  name := extracted.name
  description := jsOrStr extracted.description (jsOrStr (some extracted.context) "")
  firstSeen := timestamp
  lastSeen := timestamp
  occurrences := 0
  conversations := []
  links := []
  normalizedKey := key
  context := extracted.context

/-- JS `MemoryProcessor.getOrCreateEntity(extracted, convId, timestamp)`.
Returns the resolved entity id together with the updated entity map and id
counter (the counter models the `Date.now()`/`Math.random()` nonce of freshly
generated ids). -/
def getOrCreateEntity (entities : List Entity) (counter : Nat)
    (extracted : Extracted) (convId : String) (timestamp : ℚ) :
    EntityId × List Entity × Nat :=
  let key := normalizeEntityName extracted.name
  match findExistingEntity entities key extracted.type with
  | some existingId => (existingId, entities, counter)
  | none =>
    let entity := mkNewEntity extracted key timestamp counter
    (entity.id, mapSet entities entity, counter + 1)

end MemoryProcessor

/-- Resolution as the specification describes it (§4.2 / claim C1): exact
`normalizedKey` match against a same-type entity first; otherwise, for keys of
length > 5, the first same-type entity within reference Levenshtein distance
≤ 2; otherwise a brand-new entity (occurrences 0, `firstSeen = lastSeen =
timestamp`, empty `conversations`/`links`) is appended to the map. -/
def resolveSpec (entities : List Entity) (counter : Nat) (extracted : Extracted)
    (timestamp : ℚ) : EntityId × List Entity × Nat :=
  let key := MemoryProcessor.normalizeEntityName extracted.name
  match entities.find? (fun e => e.type == extracted.type && e.normalizedKey == key) with
  | some e => (e.id, entities, counter)
  | none =>
    match
      if key.length > 5 then
        entities.find? (fun e => e.type == extracted.type &&
          decide (levRef e.normalizedKey.toList key.toList ≤ 2))
      else none
    with
    | some e => (e.id, entities, counter)
    | none =>
      let entity := MemoryProcessor.mkNewEntity extracted key timestamp counter
      (entity.id, entities ++ [entity], counter + 1)

/-! ## Regex scanning machinery

The extractor regexes are embedded as explicit matchers.  Each matcher
`matchAt i` decides whether the pattern matches starting at index `i` and, if
so, returns the end index of the match together with a payload; `scanAll`
reproduces the JS `while ((m = re.exec(text)) !== null)` loop with a `/g`
regex: repeatedly find the leftmost match at or after `lastIndex`, then resume
searching at the end of the match. -/

/-- Character at an index (all uses are in bounds in the sources). -/
def charAt (cs : List Char) (i : Nat) : Char :=
  cs.getD i ' '

def isUpperAZ (c : Char) : Bool :=
  'A' ≤ c && c ≤ 'Z'

def isLowerAZ (c : Char) : Bool :=
  'a' ≤ c && c ≤ 'z'

/-- A letter of either case — what `[A-Z]` or `[a-z]` matches under the `/i`
flag. -/
def isLetterAZ (c : Char) : Bool :=
  isUpperAZ c || isLowerAZ c

/-- Whether position `i` holds a word character (`false` out of bounds);
`\b` before a word character at `i` holds iff `i = 0` or position `i - 1`
is not a word character. -/
def isWordAt (cs : List Char) (i : Nat) : Bool :=
  decide (i < cs.length) && isWordChar (charAt cs i)

/-- Length of the maximal run of characters satisfying `p` starting at `i`
(the fuel `cs.length - i` makes the recursion structural). -/
def runLenAux (p : Char → Bool) (cs : List Char) : Nat → Nat → Nat
  | 0, _ => 0
  | fuel + 1, i =>
    if decide (i < cs.length) && p (charAt cs i) then
      runLenAux p cs fuel (i + 1) + 1
    else 0

def runLen (p : Char → Bool) (cs : List Char) (i : Nat) : Nat :=
  runLenAux p cs (cs.length - i) i

/-- `text.substring(i, j)` on the character list. -/
def sliceStr (cs : List Char) (i j : Nat) : String :=
  String.mk ((cs.drop i).take (j - i))

/-- Case-insensitive literal match of `w` (given lowercase) at position `i`. -/
def matchLitCI (cs : List Char) (i : Nat) (w : List Char) : Bool :=
  ((cs.drop i).take w.length).map Char.toLower == w

/-- The JS `/g` exec loop: scan left to right; at a match `(j, a)` emit `a` and
resume at `j` (all embedded patterns have positive length), otherwise advance
one position. -/
def scanAllAux (matchAt : Nat → Option (Nat × α)) (n : Nat) : Nat → Nat → List α
  | 0, _ => []
  | fuel + 1, i =>
    if i < n then
      match matchAt i with
      | some (j, a) => a :: scanAllAux matchAt n fuel (max j (i + 1))
      | none => scanAllAux matchAt n fuel (i + 1)
    else []

def scanAll (matchAt : Nat → Option (Nat × α)) (n : Nat) : List α :=
  scanAllAux matchAt n n 0

/-- Greedy bounded repetition with backtracking: try the repetition count
`k, k - 1, …, lo` and return the first count whose continuation succeeds
(the JS backtracking order for a greedy `{lo,hi}` / `+` / `*`). -/
def tryCountDown (lo : Nat) (k : Nat) (cont : Nat → Option β) : Option β :=
  if k < lo then none
  else
    match cont k with
    | some r => some r
    | none =>
      match k with
      | 0 => none
      | k' + 1 => tryCountDown lo k' cont

/-- Greedy `\s+` followed by a continuation (takes the count of whitespace
characters actually consumed into account via backtracking). -/
def wsPlus (cs : List Char) (i : Nat) (cont : Nat → Option β) : Option β :=
  tryCountDown 1 (runLen isSpaceChar cs i) (fun k => cont (i + k))

/-- Greedy `\s*` followed by a continuation. -/
def wsStar (cs : List Char) (i : Nat) (cont : Nat → Option β) : Option β :=
  tryCountDown 0 (runLen isSpaceChar cs i) (fun k => cont (i + k))

/-- Greedy optional group `(?:w\s+)?` (case-insensitive literal `w`): first try
consuming the group, then try without it. -/
def optLitWs (cs : List Char) (i : Nat) (w : List Char) (cont : Nat → Option β) :
    Option β :=
  match
    (if matchLitCI cs i w then wsPlus cs (i + w.length) cont else none)
  with
  | some r => some r
  | none => cont i

/-- Greedy capture group `([A-Z][X]{lo,hi})` under `/i` where `X` is the class
`clsPred`, followed by a continuation receiving the end index of the group.
Returns `(end of group, result of continuation)`. -/
def captureClass (cs : List Char) (q : Nat) (clsPred : Char → Bool)
    (lo hi : Nat) (cont : Nat → Option β) : Option (Nat × β) :=
  if decide (q < cs.length) && isLetterAZ (charAt cs q) then
    tryCountDown lo (min (runLen clsPred cs (q + 1)) hi)
      (fun k =>
        match cont (q + 1 + k) with
        | some r => some (q + 1 + k, r)
        | none => none)
  else none

/-! ## Extractors (`MemoryProcessor.extractPeople` … `extractThoughts`) -/

/-- JS `MemoryProcessor.getContext(text, position, radius)`. -/
def getContext (text : String) (position radius : Nat) : String :=
  jsTrim (sliceStr text.toList (position - radius)
    (min text.length (position + radius)))

/-- JS `MemoryProcessor.summarize(text, maxLength)`. -/
def summarize (text : String) (maxLength : Nat) : String :=
  if text.length ≤ maxLength then text
  else jsTrim (sliceStr text.toList 0 maxLength) ++ "..."

/-- The fixed stoplist of `MemoryProcessor.isCommonNonName`. -/
def commonNonNames : List String :=
  ["ChatGPT", "The", "This", "That", "There", "What", "Where", "When", "Why",
   "How", "Can", "Will", "Would", "Could", "Should", "May", "Might", "Must",
   "Yes", "No", "True", "False", "Error", "Success", "Warning", "Info"]

def isCommonNonName (name : String) : Bool :=
  commonNonNames.contains name

/-- Matcher for people pattern 1, `/\b([A-Z][a-z]+ (?:[A-Z][a-z]+))\b/g`, at
position `i`; returns the end index (the captured name is the whole match). -/
def matchPeople1At (cs : List Char) (i : Nat) : Option Nat :=
  if (decide (i = 0) || !isWordAt cs (i - 1)) &&
      decide (i < cs.length) && isUpperAZ (charAt cs i) then
    match runLen isLowerAZ cs (i + 1) with
    | 0 => none
    | r1 + 1 =>
      let sp := i + 1 + (r1 + 1)
      if decide (sp < cs.length) && (charAt cs sp == ' ') &&
          decide (sp + 1 < cs.length) && isUpperAZ (charAt cs (sp + 1)) then
        match runLen isLowerAZ cs (sp + 2) with
        | 0 => none
        | r2 + 1 =>
          let j := sp + 2 + (r2 + 1)
          if !isWordAt cs j then some j else none
      else none
  else none

/-- The person-indicator prepositions of people pattern 2 (the regex has no
word boundary before them, so they may also match inside a word). -/
def personIndicators : List String :=
  ["with", "by", "from", "to", "for", "about", "ask", "meet", "talk", "call",
   "email", "message"]

/-- Matcher for people pattern 2,
`/(?:with|by|…|message)\s+([A-Z][a-z]+)\b/gi`, at position `i`; returns the
end index and the captured (original-case) name. -/
def matchPeople2At (cs : List Char) (i : Nat) : Option (Nat × String) :=
  personIndicators.findSome? (fun w =>
    if matchLitCI cs i w.toList then
      wsPlus cs (i + w.length) (fun b =>
        if decide (b < cs.length) && isLetterAZ (charAt cs b) then
          match runLen isLetterAZ cs (b + 1) with
          | 0 => none
          | r + 1 =>
            let j := b + 1 + (r + 1)
            if !isWordAt cs j then some (j, sliceStr cs b j) else none
        else none)
    else none)

/-- JS `MemoryProcessor.extractPeople(text)`. -/
def extractPeople (text : String) : List Extracted :=
  let cs := text.toList
  let pattern1 :=
    (scanAll (fun i => (matchPeople1At cs i).map (fun j =>
        (j, (sliceStr cs i j, i)))) cs.length).filterMap
      (fun x =>
        if !isCommonNonName x.1 then
          some ⟨EntityType.person, x.1, none, getContext text x.2 100⟩
        else none)
  let pattern2 :=
    (scanAll (fun i => (matchPeople2At cs i).map (fun r =>
        (r.1, (r.2, i)))) cs.length).filterMap
      (fun x =>
        if decide (x.1.length > 2) && !isCommonNonName x.1 then
          some ⟨EntityType.person, x.1, none, getContext text x.2 100⟩
        else none)
  pattern1 ++ pattern2

/-- The project class `[a-zA-Z\s]`. -/
def isProjClassChar (c : Char) : Bool :=
  isLetterAZ c || isSpaceChar c

/-- Matcher for project pattern 1,
`/(?:working on|building|creating|developing|making)\s+(?:a\s+)?(?:new\s+)?([A-Z][a-zA-Z\s]{3,30})/gi`. -/
def matchProj1At (cs : List Char) (i : Nat) : Option (Nat × String) :=
  ["working on", "building", "creating", "developing", "making"].findSome?
    (fun w =>
      if matchLitCI cs i w.toList then
        wsPlus cs (i + w.length) (fun p =>
          optLitWs cs p "a".toList (fun p1 =>
            optLitWs cs p1 "new".toList (fun q =>
              (captureClass cs q isProjClassChar 3 30 (fun _ => some ())).map
                (fun r => (r.1, sliceStr cs q r.1)))))
      else none)

/-- Matcher for project pattern 2,
`/(?:project|app|application|system|tool|website|platform)\s+(?:called|named)\s+([A-Z][a-zA-Z\s]{3,30})/gi`. -/
def matchProj2At (cs : List Char) (i : Nat) : Option (Nat × String) :=
  ["project", "app", "application", "system", "tool", "website", "platform"].findSome?
    (fun w =>
      if matchLitCI cs i w.toList then
        wsPlus cs (i + w.length) (fun p =>
          ["called", "named"].findSome? (fun w2 =>
            if matchLitCI cs p w2.toList then
              wsPlus cs (p + w2.length) (fun q =>
                (captureClass cs q isProjClassChar 3 30 (fun _ => some ())).map
                  (fun r => (r.1, sliceStr cs q r.1)))
            else none))
      else none)

/-- Matcher for project pattern 3,
`/(?:my|our|the)\s+([A-Z][a-zA-Z\s]{3,30})\s+(?:project|app|application|system|tool)/gi`. -/
def matchProj3At (cs : List Char) (i : Nat) : Option (Nat × String) :=
  ["my", "our", "the"].findSome? (fun w =>
    if matchLitCI cs i w.toList then
      wsPlus cs (i + w.length) (fun q =>
        (captureClass cs q isProjClassChar 3 30 (fun e =>
          wsPlus cs e (fun p =>
            ["project", "app", "application", "system", "tool"].findSome?
              (fun w2 =>
                if matchLitCI cs p w2.toList then some (p + w2.length)
                else none)))).map (fun r => (r.2, sliceStr cs q r.1)))
    else none)

/-- JS `MemoryProcessor.extractProjects(text)`: run the three patterns in
order; keep trimmed names with `3 < length < 50`. -/
def extractProjects (text : String) : List Extracted :=
  let cs := text.toList
  let run : (List Char → Nat → Option (Nat × String)) → List Extracted := fun m =>
    (scanAll (fun i => (m cs i).map (fun r => (r.1, (r.2, i)))) cs.length).filterMap
      (fun x =>
        let name := jsTrim x.1
        if decide (name.length > 3) && decide (name.length < 50) then
          some ⟨EntityType.project, name, none, getContext text x.2 150⟩
        else none)
  run matchProj1At ++ run matchProj2At ++ run matchProj3At

/-- The class `[^.!?]`. -/
def isNotTermChar (c : Char) : Bool :=
  !(c == '.' || c == '!' || c == '?')

/-- The class `[^.!?\n]`. -/
def isNotTermNlChar (c : Char) : Bool :=
  !(c == '.' || c == '!' || c == '?' || c == '\n')

/-- A phrase capture `([X]{10,200})[T]` where `X` is `clsPred` and the
terminator class `T` is `termPred`: greedy bounded repetition, then one
terminator character; returns the end of the whole match and the captured
phrase. -/
def capturePhrase (cs : List Char) (q : Nat) (clsPred termPred : Char → Bool) :
    Option (Nat × String) :=
  tryCountDown 10 (min (runLen clsPred cs q) 200) (fun k =>
    if decide (q + k < cs.length) && termPred (charAt cs (q + k)) then
      some (q + k + 1, sliceStr cs q (q + k))
    else none)

/-- Matcher for knowledge pattern 1,
`/(?:I learned|I discovered|I found out|I realized|I understood)\s+(?:that\s+)?([^.!?]{10,200})[.!?]/gi`. -/
def matchKnow1At (cs : List Char) (i : Nat) : Option (Nat × String) :=
  ["i learned", "i discovered", "i found out", "i realized", "i understood"].findSome?
    (fun w =>
      if matchLitCI cs i w.toList then
        wsPlus cs (i + w.length) (fun p =>
          optLitWs cs p "that".toList (fun q =>
            capturePhrase cs q isNotTermChar
              (fun c => c == '.' || c == '!' || c == '?')))
      else none)

/-- Matcher for knowledge pattern 2,
`/(?:TIL|Today I learned):\s*([^.!?\n]{10,200})[.!?\n]/gi`. -/
def matchKnow2At (cs : List Char) (i : Nat) : Option (Nat × String) :=
  ["til", "today i learned"].findSome? (fun w =>
    if matchLitCI cs i w.toList &&
        (charAt cs (i + w.length) == ':') &&
        decide (i + w.length < cs.length) then
      wsStar cs (i + w.length + 1) (fun q =>
        capturePhrase cs q isNotTermNlChar
          (fun c => c == '.' || c == '!' || c == '?' || c == '\n'))
    else none)

/-- Matcher for knowledge pattern 3,
`/(?:interesting|fascinating|cool):\s+([^.!?\n]{10,200})[.!?\n]/gi`. -/
def matchKnow3At (cs : List Char) (i : Nat) : Option (Nat × String) :=
  ["interesting", "fascinating", "cool"].findSome? (fun w =>
    if matchLitCI cs i w.toList &&
        (charAt cs (i + w.length) == ':') &&
        decide (i + w.length < cs.length) then
      wsPlus cs (i + w.length + 1) (fun q =>
        capturePhrase cs q isNotTermNlChar
          (fun c => c == '.' || c == '!' || c == '?' || c == '\n'))
    else none)

/-- JS `MemoryProcessor.extractKnowledge(text)`. -/
def extractKnowledge (text : String) : List Extracted :=
  let cs := text.toList
  let run : (List Char → Nat → Option (Nat × String)) → List Extracted := fun m =>
    (scanAll (fun i => (m cs i).map (fun r => (r.1, (r.2, i)))) cs.length).map
      (fun x =>
        let concept := jsTrim x.1
        ⟨EntityType.knowledge, summarize concept 50, some concept,
          getContext text x.2 150⟩)
  run matchKnow1At ++ run matchKnow2At ++ run matchKnow3At

/-- Matcher for the question regex `/[^.!?]*\?/g`: a greedy run of
non-terminator characters followed by a literal `?`. -/
def matchQuestionAt (cs : List Char) (i : Nat) : Option (Nat × String) :=
  let m := runLen isNotTermChar cs i
  if decide (i + m < cs.length) && (charAt cs (i + m) == '?') then
    some (i + m + 1, sliceStr cs i (i + m + 1))
  else none

/-- JS `MemoryProcessor.extractQuestions(text, messages)`: for every
user-authored message, every regex match of length > 10 after trimming. -/
def extractQuestions (messages : List (String × String)) : List Extracted :=
  messages.foldl (fun acc msg =>
    if msg.1 == "user" then
      acc ++ ((scanAll (fun i => matchQuestionAt msg.2.toList i)
          msg.2.toList.length).filterMap (fun question =>
        let q := jsTrim question
        if decide (q.length > 10) then
          some ⟨EntityType.question, summarize q 60, some q, q⟩
        else none))
    else acc) []

/-- Matcher for thought pattern 1,
`/(?:I think|I believe|I feel|my opinion is|in my view)\s+(?:that\s+)?([^.!?]{10,200})[.!?]/gi`. -/
def matchThought1At (cs : List Char) (i : Nat) : Option (Nat × String) :=
  ["i think", "i believe", "i feel", "my opinion is", "in my view"].findSome?
    (fun w =>
      if matchLitCI cs i w.toList then
        wsPlus cs (i + w.length) (fun p =>
          optLitWs cs p "that".toList (fun q =>
            capturePhrase cs q isNotTermChar
              (fun c => c == '.' || c == '!' || c == '?')))
      else none)

/-- Matcher for thought pattern 2,
`/(?:my idea is|my thought is|what if)\s+([^.!?]{10,200})[.!?]/gi`. -/
def matchThought2At (cs : List Char) (i : Nat) : Option (Nat × String) :=
  ["my idea is", "my thought is", "what if"].findSome? (fun w =>
    if matchLitCI cs i w.toList then
      wsPlus cs (i + w.length) (fun q =>
        capturePhrase cs q isNotTermChar
          (fun c => c == '.' || c == '!' || c == '?'))
    else none)

/-- JS `MemoryProcessor.extractThoughts(text)`. -/
def extractThoughts (text : String) : List Extracted :=
  let cs := text.toList
  let run : (List Char → Nat → Option (Nat × String)) → List Extracted := fun m =>
    (scanAll (fun i => (m cs i).map (fun r => (r.1, (r.2, i)))) cs.length).map
      (fun x =>
        let thought := jsTrim x.1
        ⟨EntityType.thought, summarize thought 50, some thought,
          getContext text x.2 150⟩)
  run matchThought1At ++ run matchThought2At

/-- JS `MemoryProcessor.extractEntities(text, messages)`: people, projects,
knowledge, questions, thoughts, in that order (patterns are extracted in
post-processing only and never populated here). -/
def extractEntities (text : String) (messages : List (String × String)) :
    List Extracted :=
  extractPeople text ++ extractProjects text ++ extractKnowledge text ++
    extractQuestions messages ++ extractThoughts text

/-! ## Conversation input model and the processing pipeline (part_004) -/

/-- One element of a `message.content.parts` array: a string part or a
non-string part (asset pointers etc., skipped by `extractMessages`). -/
inductive MsgPart where
  | str (s : String)
  | nonString
deriving DecidableEq, Repr

/-- A `mapping` node's message: `content.parts` (when `content`/`parts`
exist) and `author?.role`. -/
structure Msg where
  parts : Option (List MsgPart)
  role : Option String
deriving DecidableEq, Repr

structure MsgNode where
  message : Option Msg
deriving DecidableEq, Repr

/-- A raw conversation record from `conversations.json`: `id` /
`conversation_id`, optional `title`, `create_time` / `update_time`, and the
`mapping` (its nodes in object-iteration = insertion order). -/
structure ConvInput where
  id : Option String
  conversation_id : Option String
  title : Option String
  create_time : Option ℚ
  update_time : Option ℚ
  mapping : List MsgNode
deriving DecidableEq, Repr

/-- `conv.id || conv.conversation_id` (modelling an absent id as `""`). -/
def convIdOf (c : ConvInput) : String :=
  jsOrStr c.id (jsOrStr c.conversation_id "")

/-- JS `MemoryProcessor.extractMessages(conversation)`: every string part with
nonempty trim, tagged with `author?.role || 'unknown'`, in mapping order. -/
def extractMessages (c : ConvInput) : List (String × String) :=
  c.mapping.foldl (fun acc node =>
    match node.message with
    | none => acc
    | some m =>
      match m.parts with
      | none => acc
      | some parts =>
        acc ++ parts.filterMap (fun p =>
          match p with
          | MsgPart.str s =>
            if decide ((jsTrim s).length > 0) then
              some (jsOrStr m.role "unknown", s)
            else none
          | MsgPart.nonString => none)) []

/-- A conversation summary as stored by `processConversation`. -/
structure ConvData where
  id : String
  title : String
  timestamp : ℚ
  date : String
  entities : List EntityId
deriving DecidableEq, Repr

/-- A date-keyed timeline entry; the JS `Set` of entity ids is an
insertion-ordered deduplicated list. -/
structure TimelineEntry where
  date : String
  entities : List EntityId
  conversations : List String
deriving DecidableEq, Repr

/-- `Array.prototype.join(sep)`. -/
def joinWith (sep : String) : List String → String
  | [] => ""
  | x :: xs => xs.foldl (fun acc y => acc ++ sep ++ y) x

/-- JS `Map.prototype.set` on the conversation map. -/
def convMapSet (convs : List ConvData) (c : ConvData) : List ConvData :=
  if convs.any (fun x => x.id == c.id) then
    convs.map (fun x => if x.id == c.id then c else x)
  else convs ++ [c]

/-- `Set.prototype.add` for each id in turn. -/
def setAddAll (s : List EntityId) (xs : List EntityId) : List EntityId :=
  xs.foldl (fun s x => if s.contains x then s else s ++ [x]) s

/-- Civil date from days since 1970-01-01 (what
`new Date(ms).toISOString()` computes for the date part). -/
def civilFromDays (z0 : ℤ) : ℤ × ℤ × ℤ :=
  let z := z0 + 719468
  let era := Int.fdiv z 146097
  let doe := z - era * 146097
  let yoe := Int.fdiv (doe - Int.fdiv doe 1460 + Int.fdiv doe 36524 -
    Int.fdiv doe 146096) 365
  let y := yoe + era * 400
  let doy := doe - (365 * yoe + Int.fdiv yoe 4 - Int.fdiv yoe 100)
  let mp := Int.fdiv (5 * doy + 2) 153
  let d := doy - Int.fdiv (153 * mp + 2) 5 + 1
  let m := mp + (if mp < 10 then 3 else -9)
  (y + (if m ≤ 2 then 1 else 0), m, d)

def pad2 (n : ℤ) : String :=
  if n < 10 then "0" ++ toString n else toString n

/-- `new Date(timestamp * 1000).toISOString().split('T')[0]`:
`⌊timestamp * 1000⌋ = ⌊(num * 1000) / den⌋` is computed directly on the
rational's numerator and denominator. -/
def dateOf (timestamp : ℚ) : String :=
  let msFloor := Int.fdiv (timestamp.num * 1000) timestamp.den
  let days := Int.fdiv msFloor 86400000
  let ymd := civilFromDays days
  toString ymd.1 ++ "-" ++ pad2 ymd.2.1 ++ "-" ++ pad2 ymd.2.2

/-- The live in-memory state of a `MemoryProcessor` run: the entity map, the
conversation map, the timeline map (all insertion-ordered) and the fresh-id
counter. -/
structure RunState where
  entities : List Entity
  conversationEntities : List ConvData
  timeline : List TimelineEntry
  counter : Nat
deriving DecidableEq, Repr

/-- JS `MemoryProcessor.updateTimeline(date, entityIds, convId)`. -/
def updateTimeline (timeline : List TimelineEntry) (date : String)
    (entityIds : List EntityId) (convId : String) : List TimelineEntry :=
  let tl := if timeline.any (fun e => e.date == date) then timeline
    else timeline ++ [⟨date, [], []⟩]
  tl.map (fun e =>
    if e.date == date then
      { e with entities := setAddAll e.entities entityIds,
               conversations := e.conversations ++ [convId] }
    else e)

/-- One step of the `for (const extracted of extractedEntities)` loop in
`processConversation`: resolve the candidate, record its id, then mutate the
resolved entity (append the conversation id if absent, bump `lastSeen`,
increment `occurrences`). A failed lookup (impossible — claim C10) would
throw in JS; it is modelled as leaving the state unchanged. -/
def processExtractedStep (convId : String) (timestamp : ℚ)
    (acc : List Entity × List EntityId × Nat) (extracted : Extracted) :
    List Entity × List EntityId × Nat :=
  let r := MemoryProcessor.getOrCreateEntity acc.1 acc.2.2 extracted convId
    timestamp
  let entityId := r.1
  let es1 := r.2.1
  let cnt1 := r.2.2
  match entitiesGet es1 entityId with
  | some entity =>
    let entity1 :=
      if entity.conversations.contains convId then entity
      else { entity with conversations := entity.conversations ++ [convId] }
    let entity2 := { entity1 with lastSeen := max entity1.lastSeen timestamp,
                                  occurrences := entity1.occurrences + 1 }
    (mapSet es1 entity2, acc.2.1 ++ [entityId], cnt1)
  | none => (es1, acc.2.1 ++ [entityId], cnt1)

/-- JS `MemoryProcessor.processConversation(conversation)`; `now` models
`Date.now()` (in milliseconds) for the timestamp fallback. -/
def processConversation (now : ℚ) (st : RunState) (c : ConvInput) : RunState :=
  let convId := convIdOf c
  let title := jsOrStr c.title "Untitled"
  let timestamp := jsOrNum c.create_time (jsOrNum c.update_time (now / 1000))
  let date := dateOf timestamp
  let messages := extractMessages c
  let fullText := joinWith "\n\n" (messages.map (fun m => m.2))
  let extractedEntities := extractEntities fullText messages
  let r := extractedEntities.foldl (processExtractedStep convId timestamp)
    (st.entities, [], st.counter)
  let convData : ConvData :=
    { id := convId, title := title, timestamp := timestamp, date := date,
      entities := r.2.1 }
  { entities := r.1,
    conversationEntities := convMapSet st.conversationEntities convData,
    timeline := updateTimeline st.timeline date r.2.1 convId,
    counter := r.2.2 }

/-- The batched conversation loop (`processBatch` over 500-conversation
slices processes the very same conversations in the same order, so the state
evolution is the sequential fold; batch boundaries only drive progress
events and cooperative sleeps). -/
def processBatches (now : ℚ) (st : RunState) (convs : List ConvInput) :
    RunState :=
  convs.foldl (processConversation now) st

/-- JS `MemoryProcessor.filterSparseEntities()`. -/
def filterSparseEntities (minOccurrences : Nat) (st : RunState) : RunState :=
  let sparse := st.entities.filter (fun e => e.occurrences < minOccurrences)
  let convs := sparse.foldl (fun cs e =>
    cs.map (fun c =>
      { c with entities := c.entities.filter (fun id => id ≠ e.id) }))
    st.conversationEntities
  let entities1 := st.entities.filter
    (fun e => !decide (e.occurrences < minOccurrences))
  let entities2 := entities1.map (fun e =>
    { e with links := e.links.filter (fun l => entities1.any (fun x => x.id == l)) })
  { st with entities := entities2, conversationEntities := convs }

/-- One pair step of `computeRelationships`: look both entities up; if both
exist, push each into the other's `links` when absent (the second check runs
against the already-updated map, matching the JS in-place aliasing when the
two ids coincide). -/
def linkStep (es : List Entity) (a b : EntityId) : List Entity :=
  match entitiesGet es a, entitiesGet es b with
  | some _, some _ =>
    let es1 := es.map (fun e =>
      if e.id == a then
        (if e.links.contains b then e else { e with links := e.links ++ [b] })
      else e)
    es1.map (fun e =>
      if e.id == b then
        (if e.links.contains a then e else { e with links := e.links ++ [a] })
      else e)
  | _, _ => es

/-- All ordered index pairs `i < j` of a conversation's entity list, in the
JS double-loop order. -/
def allOrderedPairs : List EntityId → List (EntityId × EntityId)
  | [] => []
  | x :: xs => xs.map (fun y => (x, y)) ++ allOrderedPairs xs

/-- JS `MemoryProcessor.computeRelationships()`. -/
def computeRelationships (st : RunState) : RunState :=
  let linked := st.conversationEntities.foldl
    (fun es c => (allOrderedPairs c.entities).foldl (fun es ab => linkStep es ab.1 ab.2) es)
    st.entities
  { st with entities := linked }

/-- Lexicographic `<` on character lists. -/
def charsLt : List Char → List Char → Bool
  | [], [] => false
  | [], _ :: _ => true
  | _ :: _, [] => false
  | a :: as, b :: bs =>
    if a < b then true else if b < a then false else charsLt as bs

/-- String `≤` as a boolean (what `a.date.localeCompare(b.date) ≤ 0` computes
for ASCII date strings). -/
def strLe (a b : String) : Bool :=
  a == b || charsLt a.toList b.toList

/-- Stable insertion into a sorted list: an element goes in front of the first
element it compares `le` to. -/
def insertSorted (le : α → α → Bool) (x : α) : List α → List α
  | [] => [x]
  | y :: ys => if le x y then x :: y :: ys else y :: insertSorted le x ys

/-- A stable comparator sort (JS `Array.prototype.sort` is stable; the dates
here are pairwise distinct, so any sorting algorithm yields the JS result). -/
def stableSortBy (le : α → α → Bool) : List α → List α
  | [] => []
  | x :: xs => insertSorted le x (stableSortBy le xs)

/-- JS `MemoryProcessor.buildTimeline()`: the timeline map's values (entity
sets materialised as arrays) sorted by date. -/
def buildTimeline (timeline : List TimelineEntry) : List TimelineEntry :=
  stableSortBy (fun a b => strLe a.date b.date) timeline

/-- The persistent store contents relevant to the processor: the `entities`,
`conversations` and `timeline` collections and the inverted `searchIndex`. -/
structure SearchIndexEntry where
  word : String
  entities : List EntityId
deriving DecidableEq, Repr

structure Store where
  entities : List Entity
  conversations : List ConvData
  timeline : List TimelineEntry
  searchIndex : List SearchIndexEntry
deriving DecidableEq, Repr

def emptyStore : Store :=
  ⟨[], [], [], []⟩

/-- JS `split(/\s+/)`: split on maximal whitespace runs, keeping the leading /
trailing empty tokens JS produces (`inRun` is true while consuming a
whitespace run whose token has already been emitted). -/
def jsSplitWsAux : List Char → Bool → List Char → List String
  | [], _, acc => [String.mk acc.reverse]
  | c :: rest, inRun, acc =>
    if isSpaceChar c then
      if inRun then jsSplitWsAux rest true acc
      else String.mk acc.reverse :: jsSplitWsAux rest true []
    else jsSplitWsAux rest false (c :: acc)

def jsSplitWs (s : String) : List String :=
  jsSplitWsAux s.toList false []

/-- JS `DBManager.addToSearchIndex(word, entityId)`. -/
def addToSearchIndex (idx : List SearchIndexEntry) (word : String)
    (id : EntityId) : List SearchIndexEntry :=
  if idx.any (fun e => e.word == word) then
    idx.map (fun e =>
      if e.word == word then
        (if e.entities.contains id then e
         else { e with entities := e.entities ++ [id] })
      else e)
  else idx ++ [⟨word, [id]⟩]

/-- JS `MemoryProcessor.buildSearchIndex()`: index every word of length > 2 of
the lowercased `name + " " + description` of every entity. -/
def buildSearchIndex (idx : List SearchIndexEntry) (entities : List Entity) :
    List SearchIndexEntry :=
  entities.foldl (fun ix e =>
    ((jsSplitWs (jsToLower (e.name ++ " " ++ e.description))).filter
      (fun w => decide (w.length > 2))).foldl
      (fun ix w => addToSearchIndex ix w e.id) ix) idx

/-- `store.put` for each record of a collection (insert or replace by key). -/
def putAllEntities (stored : List Entity) (es : List Entity) : List Entity :=
  es.foldl mapSet stored

def putAllConvs (stored : List ConvData) (cs : List ConvData) : List ConvData :=
  cs.foldl convMapSet stored

def putTimelineEntry (stored : List TimelineEntry) (t : TimelineEntry) :
    List TimelineEntry :=
  if stored.any (fun x => x.date == t.date) then
    stored.map (fun x => if x.date == t.date then t else x)
  else stored ++ [t]

def putAllTimeline (stored : List TimelineEntry) (ts : List TimelineEntry) :
    List TimelineEntry :=
  ts.foldl putTimelineEntry stored

/-- JS `MemoryProcessor.filterNewConversations(conversations)`: keep only
conversations whose id is not already stored. -/
def filterNewConversations (store : Store) (convs : List ConvInput) :
    List ConvInput :=
  convs.filter (fun c =>
    !(store.conversations.any (fun sc => sc.id == convIdOf c)))

/-- What `processConversations` returns. -/
structure RunResult where
  entities : List Entity
  conversations : List ConvData
  timeline : List TimelineEntry
deriving DecidableEq, Repr

/-- The live maps a run starts from: the stored entities/conversations in
resume mode (`loadExistingEntities` — the timeline map is not loaded), empty
maps otherwise. `c0` is the initial fresh-id counter. -/
def initialLiveState (resumeMode : Bool) (store : Store) (c0 : Nat) :
    RunState :=
  if resumeMode then ⟨store.entities, store.conversations, [], c0⟩
  else ⟨[], [], [], c0⟩

/-- `saveToDatabase` (compute relationships, then put every entity, every
conversation, the built timeline and the search index into the store),
returning the updated store and the final live state. -/
def saveToDatabase (store : Store) (st : RunState) : Store × RunState :=
  let st1 := computeRelationships st
  (⟨putAllEntities store.entities st1.entities,
    putAllConvs store.conversations st1.conversationEntities,
    putAllTimeline store.timeline (buildTimeline st1.timeline),
    buildSearchIndex store.searchIndex st1.entities⟩, st1)

/-- JS `MemoryProcessor.processConversations(conversations, onProgress,
resumeMode)` of part_004: filter out already-stored conversations; if none
remain, return the current in-memory state unmodified with no store writes
(emitting the `alreadyProcessed` progress event); otherwise process the
batches, filter sparse entities, and persist. Returns the final store and the
returned `{entities, conversations, timeline}` snapshot. -/
def processConversationsRun (minOccurrences : Nat) (now : ℚ) (c0 : Nat)
    (store : Store) (resumeMode : Bool) (convs : List ConvInput) :
    Store × RunResult :=
  let st := initialLiveState resumeMode store c0
  let toProcess := filterNewConversations store convs
  if toProcess.length = 0 then
    (store, ⟨st.entities, st.conversationEntities, buildTimeline st.timeline⟩)
  else
    let st1 := processBatches now st toProcess
    let st2 := filterSparseEntities minOccurrences st1
    let r := saveToDatabase store st2
    (r.1, ⟨r.2.entities, r.2.conversationEntities, buildTimeline r.2.timeline⟩)

/-- Some entity in the map carries this id. -/
def idIn (es : List Entity) (id : EntityId) : Prop :=
  ∃ e ∈ es, e.id = id

/-- Every entity id in every stored conversation's `entities` list is a key of
the live entity map. -/
def ConvRefsOK (st : RunState) : Prop :=
  ∀ c ∈ st.conversationEntities, ∀ id ∈ c.entities, idIn st.entities id

/-- Occurrence threshold plus closed links, the invariant `filterSparseEntities`
establishes and `computeRelationships` preserves. -/
def EntitiesOK (k : Nat) (es : List Entity) : Prop :=
  (∀ e ∈ es, k ≤ e.occurrences) ∧ (∀ e ∈ es, ∀ l ∈ e.links, idIn es l)

/-- The link relation of the entity map is symmetric. -/
def Sym (es : List Entity) : Prop :=
  ∀ x ∈ es, ∀ y ∈ es, (y.id ∈ x.links ↔ x.id ∈ y.links)

/-- The per-entity update `linkStep` maps over the list: push `y` into the
links of the entity with id `x` when absent. -/
def linkAdd (x y : EntityId) (e : Entity) : Entity :=
  if e.id == x then
    (if e.links.contains y then e else { e with links := e.links ++ [y] })
  else e

/-- A renderer node (`graph-renderer.js`): world coordinates, the entity type
string, and the `visible` flag — `none` models a node whose `visible` property
was never assigned (`undefined !== false` in JS, so only the literal `false`
hides). -/
structure RNode where
  id : EntityId
  type : String
  x : ℚ
  y : ℚ
  visible : Option Bool
deriving DecidableEq, Repr

/-- A renderer edge, by its endpoint node ids (`edge.source.id` /
`edge.target.id`). -/
structure REdge where
  source : EntityId
  target : EntityId
deriving DecidableEq, Repr

/-- The renderer viewport state. -/
structure Viewport where
  offsetX : ℚ
  offsetY : ℚ
  scale : ℚ
deriving DecidableEq, Repr

/-- JS `GraphRenderer.updateVisibleElements()`: cull nodes to the view
rectangle expanded by the 100px margin (and to those not explicitly hidden),
then cull edges to those whose both endpoints survived. Returns
`(visibleNodes, visibleEdges)`. -/
def updateVisibleElements (nodes : List RNode) (edges : List REdge)
    (vp : Viewport) (width height : ℚ) : List RNode × List REdge :=
  let margin : ℚ := 100
  let viewLeft := -vp.offsetX / vp.scale - margin
  let viewRight := (width - vp.offsetX) / vp.scale + margin
  let viewTop := -vp.offsetY / vp.scale - margin
  let viewBottom := (height - vp.offsetY) / vp.scale + margin
  let visibleNodes := nodes.filter (fun n =>
    decide (n.visible ≠ some false ∧ viewLeft ≤ n.x ∧ n.x ≤ viewRight ∧
      viewTop ≤ n.y ∧ n.y ≤ viewBottom))
  let visibleNodeIds := visibleNodes.map (fun n => n.id)
  let visibleEdges := edges.filter (fun e =>
    visibleNodeIds.contains e.source && visibleNodeIds.contains e.target)
  (visibleNodes, visibleEdges)

/-- JS `GraphRenderer.filterByType(types)`: assign every node's `visible` flag
to the boolean `types.length === 0 || typeSet.has(node.type)`. -/
def filterByType (types : List String) (nodes : List RNode) : List RNode :=
  nodes.map (fun n =>
    { n with visible := some (decide (types.length = 0) || types.contains n.type) })

/-- `needle` is an initial segment of `haystack` (character lists). -/
def startsWithChars : List Char → List Char → Bool
  | _, [] => true
  | [], _ :: _ => false
  | a :: as, b :: bs => a == b && startsWithChars as bs

def strIncludesAux : List Char → List Char → Bool
  | [], needle => needle.isEmpty
  | c :: t, needle => startsWithChars (c :: t) needle || strIncludesAux t needle

/-- JS `String.prototype.includes`: substring test. -/
def strIncludes (s sub : String) : Bool :=
  strIncludesAux s.toList sub.toList

namespace SearchEngine

/-- A search result: the entity together with its `_searchScore` property (an
absent `_searchScore` is modelled as 0, matching the `entity._searchScore || 0`
read in `scoreResults`). -/
structure ScoredEntity where
  entity : Entity
  score : ℚ
deriving Repr

/-- JS `DBManager.searchIndex(query)`: look every word of length > 2 of the
lowercased query up in the inverted index, union the entity-id sets in
insertion order, then resolve the ids against the entity store (silently
skipping ids that resolve to nothing). -/
def dbSearchIndex (store : Store) (query : String) : List Entity :=
  let words := (jsSplitWs (jsToLower query)).filter (fun w => decide (w.length > 2))
  let entityIds := words.foldl (fun ids w =>
    match store.searchIndex.find? (fun e => e.word == w) with
    | some entry => setAddAll ids entry.entities
    | none => ids) []
  entityIds.foldl (fun es id =>
    match entitiesGet store.entities id with
    | some e => es ++ [e]
    | none => es) []

/-- JS `SearchEngine.fuzzyMatch(text, term)`: some whitespace-split word of
`text` is within Levenshtein distance `min(2, ⌊term.length / 3⌋)` of the
term. -/
def fuzzyMatch (text term : String) : Bool :=
  (jsSplitWs text).any (fun word =>
    decide (levenshteinDistance word term ≤ min 2 (term.length / 3)))

/-- JS `SearchEngine.fuzzySearch(entities, query)`: score every entity by the
query terms (10 for a name substring hit, else 5 for a description substring
hit, else 2 for a fuzzy word hit), keeping entities with at least one
matching term. -/
def fuzzySearch (entities : List Entity) (query : String) : List ScoredEntity :=
  let queryTerms := jsSplitWs query
  entities.foldl (fun acc entity =>
    let searchText := jsToLower (entity.name ++ " " ++ entity.description)
    let sm := queryTerms.foldl (fun (sm : ℚ × Nat) term =>
      if term.length < 2 then sm
      else if strIncludes (jsToLower entity.name) term then (sm.1 + 10, sm.2 + 1)
      else if strIncludes (jsToLower entity.description) term then
        (sm.1 + 5, sm.2 + 1)
      else if fuzzyMatch searchText term then (sm.1 + 2, sm.2 + 1)
      else sm) ((0 : ℚ), (0 : Nat))
    if sm.2 > 0 then acc ++ [⟨entity, sm.1⟩] else acc) []

/-- JS `SearchEngine.scoreResults(results, query)`; `logFn` stands for
`Math.log` (the natural logarithm, never evaluated by any proof here) and
`nowSec` for `Date.now() / 1000`. -/
def scoreResults (logFn : Nat → ℚ) (nowSec : ℚ) (results : List ScoredEntity)
    (query : String) : List ScoredEntity :=
  let queryLower := jsToLower query
  let scored := results.map (fun r =>
    let s0 := r.score
    let s1 :=
      if jsToLower r.entity.name == queryLower then s0 + 100
      else if startsWithChars (jsToLower r.entity.name).toList
        queryLower.toList then s0 + 50
      else s0
    let s2 := s1 + logFn (r.entity.occurrences + 1) * 2
    let days := (nowSec - r.entity.lastSeen) / 86400
    let s3 := if days < 7 then s2 + 10 else if days < 30 then s2 + 5 else s2
    { r with score := s3 })
  stableSortBy (fun a b => decide (b.score ≤ a.score)) scored

/-- JS `SearchEngine.getRecentEntities(maxResults)`: all entities sorted by
`lastSeen` descending, first `maxResults` of them. -/
def getRecentEntities (store : Store) (maxResults : Nat) : List Entity :=
  (stableSortBy (fun a b => decide (b.lastSeen ≤ a.lastSeen))
    store.entities).take maxResults

/-- JS `SearchEngine.search(query)` under the default options
(`types = []`, `dateRange = null`, `maxResults = 50`, `fuzzy = true`): the
type and date filters are identity and the fuzzy merge is unconditional. -/
def search (store : Store) (logFn : Nat → ℚ) (nowSec : ℚ) (query : String) :
    List ScoredEntity :=
  if (jsTrim query).length = 0 then
    (getRecentEntities store 50).map (fun e => ⟨e, 0⟩)
  else
    let searchTerm := jsTrim (jsToLower query)
    let results0 := (dbSearchIndex store searchTerm).map
      (fun e => (⟨e, 0⟩ : ScoredEntity))
    let fuzzyResults := fuzzySearch store.entities searchTerm
    let exactIds := results0.map (fun r => r.entity.id)
    let results1 := results0 ++
      fuzzyResults.filter (fun r => !(exactIds.contains r.entity.id))
    (scoreResults logFn nowSec results1 searchTerm).take 50

end SearchEngine

/-- Modelled from the spec: one record of the append-only processing history
log, `{startIndex, endIndex, conversationsProcessed, entitiesFound,
timestamp}` (§3 Processing Checkpoint). The chunked processor itself is not
part of `src/`; only its caller and documentation are. -/
structure HistoryEntry where
  startIndex : Nat
  endIndex : Nat
  conversationsProcessed : Nat
  entitiesFound : Nat
  timestamp : ℚ
deriving DecidableEq, Repr

/-- Modelled from the spec: the persistent state the chunked processor works
against — the store plus the checkpoint metadata (`processedUpToIndex` and
the history log). -/
structure ChunkedState where
  store : Store
  processedUpToIndex : Nat
  history : List HistoryEntry
deriving DecidableEq, Repr

/-- Modelled from the spec: the caller-selectable processing mode —
incremental (`maxToProcess` count, continuing from the checkpoint) or
explicit `[start, end)` range (spec line on processing modes). -/
inductive ChunkMode where
  | incremental (maxToProcess : Option Nat)
  | rangeMode (startIndex endIndex : Nat)
deriving DecidableEq, Repr

/-- Modelled from the spec: the chunked
`processConversations(conversations, onProgress, maxToProcess, customRange)`
(§4.3 state machine). Selection: in incremental mode, continue from the
checkpoint, cap at `maxToProcess` and skip conversations already stored; in
range mode, take exactly the `[start, end)` slice regardless of prior state.
An empty selection reports `alreadyComplete = true`, returns the in-memory
state unmodified and performs no store writes and no metadata update.
Otherwise the selection runs through the batch / sparse-filter / relate /
persist pipeline (the `src` implementations), the checkpoint advances by the
number processed in incremental mode only, and one history entry is
appended. Returns the new state, the returned snapshot, and the
`alreadyComplete` flag of the terminal progress event. -/
def chunkedProcess (minOccurrences : Nat) (now : ℚ) (c0 : Nat)
    (st : ChunkedState) (mode : ChunkMode) (convs : List ConvInput) :
    ChunkedState × RunResult × Bool :=
  let selected := match mode with
    | ChunkMode.incremental maxN =>
      let tail := convs.drop st.processedUpToIndex
      let tail2 := match maxN with | some m => tail.take m | none => tail
      filterNewConversations st.store tail2
    | ChunkMode.rangeMode s e => (convs.take e).drop s
  let live : RunState := ⟨st.store.entities, st.store.conversations, [], c0⟩
  if selected.length = 0 then
    (st, ⟨live.entities, live.conversationEntities, buildTimeline live.timeline⟩,
      true)
  else
    let st1 := processBatches now live selected
    let st2 := filterSparseEntities minOccurrences st1
    let r := saveToDatabase st.store st2
    let newCkpt := match mode with
      | ChunkMode.incremental _ => st.processedUpToIndex + selected.length
      | ChunkMode.rangeMode _ _ => st.processedUpToIndex
    let entry : HistoryEntry := match mode with
      | ChunkMode.incremental _ =>
        ⟨st.processedUpToIndex, st.processedUpToIndex + selected.length,
          selected.length, r.2.entities.length, now⟩
      | ChunkMode.rangeMode s e =>
        ⟨s, e, selected.length, r.2.entities.length, now⟩
    (⟨r.1, newCkpt, st.history ++ [entry]⟩,
      ⟨r.2.entities, r.2.conversationEntities, buildTimeline r.2.timeline⟩,
      false)

/-- The pristine chunked-processor state: empty store, checkpoint 0, empty
history. -/
def pristineState : ChunkedState :=
  ⟨emptyStore, 0, []⟩

/-- Concrete fixture: the indexed `"Python"` entity of claim C9. -/
def pythonEntity : Entity :=
  { id := ⟨EntityType.project, "python", 0⟩,
    type := EntityType.project,
    name := "Python",
    description := "",
    firstSeen := 86400,
    lastSeen := 86400,
    occurrences := 3,
    conversations := ["c1"],
    links := [],
    normalizedKey := "python",
    context := "" }

/-- Concrete fixture: a store whose entity collection and search index hold
exactly the `"Python"` entity (indexed under the word `"python"`). -/
def storePython : Store :=
  ⟨[pythonEntity], [], [], [⟨"python", [pythonEntity.id]⟩]⟩

/-- Concrete fixture: a conversation whose text is exactly `"John Smith"`. -/
def convJS1 : ConvInput :=
  ⟨some "c1", none, some "Conv 1", some 86400, none,
    [⟨some ⟨some [MsgPart.str "John Smith"], some "user"⟩⟩]⟩

/-- Concrete fixture: a conversation whose text is exactly `"john smith"`
(lowercase). -/
def convJSlower : ConvInput :=
  ⟨some "c2", none, some "Conv 2", some 86400, none,
    [⟨some ⟨some [MsgPart.str "john smith"], some "user"⟩⟩]⟩

/-- Concrete fixture: a second conversation whose text is exactly
`"John Smith"`. -/
def convJS2 : ConvInput :=
  ⟨some "c2", none, some "Conv 2", some 86400, none,
    [⟨some ⟨some [MsgPart.str "John Smith"], some "user"⟩⟩]⟩

theorem levRef_nil_left (t : List Char) : levRef [] t = t.length := by
  cases t <;> simp [levRef]

theorem levRef_nil_right (s : List Char) : levRef s [] = s.length := by
  cases s <;> simp [levRef]

theorem levRef_cons_cons (a b : Char) (s t : List Char) :
    levRef (a :: s) (b :: t) =
      min (levRef s (b :: t) + 1)
        (min (levRef (a :: s) t + 1) (levRef s t + (if a = b then 0 else 1))) := by
  simp [levRef]

/-- The Levenshtein recurrence also holds at the last characters of the two
strings; this is what connects the prefix-indexed DP matrix of the JS
implementations to the reference (head-recursive) definition. -/
theorem levRef_snoc (a b : Char) : ∀ xs ys : List Char,
    levRef (xs ++ [a]) (ys ++ [b]) =
      min (levRef xs (ys ++ [b]) + 1)
        (min (levRef (xs ++ [a]) ys + 1)
          (levRef xs ys + (if a = b then 0 else 1))) := by
  intro xs
  induction xs with
  | nil =>
    intro ys
    induction ys with
    | nil =>
      simp only [List.nil_append]
      rw [levRef_cons_cons]
    | cons y ys ihy =>
      have h1 := ihy
      simp only [List.nil_append, List.cons_append] at h1 ⊢
      rw [levRef_cons_cons a y, levRef_cons_cons a y, h1]
      simp only [levRef_nil_left, List.length_append, List.length_cons,
        List.length_nil]
      by_cases hay : a = y <;> by_cases hab : a = b <;>
        simp only [hay, hab, if_true, if_false, reduceIte] <;> omega
  | cons x xs ihx =>
    intro ys
    induction ys with
    | nil =>
      have h1 := ihx []
      simp only [List.nil_append, List.cons_append] at h1 ⊢
      rw [levRef_cons_cons x b, levRef_cons_cons x b, h1]
      simp only [levRef_nil_right, List.length_append, List.length_cons,
        List.length_nil]
      by_cases hxb : x = b <;> by_cases hab : a = b <;>
        simp only [hxb, hab, if_true, if_false, reduceIte] <;> omega
    | cons y ys ihy =>
      have h1 := ihx (y :: ys)
      have h2 := ihy
      have h3 := ihx ys
      simp only [List.cons_append] at h1 h2 h3 ⊢
      simp only [levRef_cons_cons]
      rw [h1, h2, h3]
      generalize (if x = y then (0 : Nat) else 1) = c
      generalize (if a = b then (0 : Nat) else 1) = d
      simp only [← min_add_add_right]
      apply le_antisymm <;> simp only [le_min_iff, min_le_iff] <;> omega

namespace MemoryProcessor

theorem levMatAux_fuel (s1 s2 : List Char) : ∀ f, ∀ g, ∀ i j, i + j ≤ f →
    i + j ≤ g → levMatAux s1 s2 f i j = levMatAux s1 s2 g i j := by
  intro f
  induction f with
  | zero =>
    intro g i j hf _
    have hi : i = 0 := by omega
    subst hi
    simp [levMatAux]
  | succ f ihf =>
    intro g i j hf hg
    match i, j with
    | 0, j => simp [levMatAux]
    | i + 1, 0 => simp [levMatAux]
    | i + 1, j + 1 =>
      obtain ⟨g1, rfl⟩ : ∃ g1, g = g1 + 1 := ⟨g - 1, by omega⟩
      simp only [levMatAux]
      rw [ihf g1 i (j + 1) (by omega) (by omega),
        ihf g1 (i + 1) j (by omega) (by omega),
        ihf g1 i j (by omega) (by omega)]

theorem levMat_zero_left (s1 s2 : List Char) (j : Nat) : levMat s1 s2 0 j = j := by
  simp [levMat, levMatAux]

theorem levMat_zero_right (s1 s2 : List Char) (i : Nat) : levMat s1 s2 i 0 = i := by
  cases i <;> simp [levMat, levMatAux]

theorem levMat_succ_succ (s1 s2 : List Char) (i j : Nat) :
    levMat s1 s2 (i + 1) (j + 1) =
      min (levMat s1 s2 i (j + 1) + 1)
        (min (levMat s1 s2 (i + 1) j + 1)
          (levMat s1 s2 i j + (if s1.getD i ' ' = s2.getD j ' ' then 0 else 1))) := by
  show levMatAux s1 s2 (i + 1 + (j + 1)) (i + 1) (j + 1) = _
  have he : i + 1 + (j + 1) = (i + j + 1) + 1 := by omega
  rw [he]
  simp only [levMatAux]
  rw [levMatAux_fuel s1 s2 (i + j + 1) (i + (j + 1)) i (j + 1) (by omega) (by omega),
    levMatAux_fuel s1 s2 (i + j + 1) (i + 1 + j) (i + 1) j (by omega) (by omega),
    levMatAux_fuel s1 s2 (i + j + 1) (i + j) i j (by omega) (by omega)]
  rfl

/-- The DP matrix entry `(i, j)` is the reference Levenshtein distance of the
length-`i` and length-`j` prefixes. -/
theorem levMat_eq_levRef (s1 s2 : List Char) : ∀ i, i ≤ s1.length →
    ∀ j, j ≤ s2.length → levMat s1 s2 i j = levRef (s1.take i) (s2.take j) := by
  intro i
  induction i with
  | zero =>
    intro _ j hj
    rw [levMat_zero_left, List.take_zero, levRef_nil_left, List.length_take]
    omega
  | succ i ihi =>
    intro hi j
    induction j with
    | zero =>
      intro _
      rw [levMat_zero_right, List.take_zero, levRef_nil_right, List.length_take]
      omega
    | succ j ihj =>
      intro hj
      have hi1 : i < s1.length := by omega
      have hj1 : j < s2.length := by omega
      rw [levMat_succ_succ,
        ihi (by omega) (j + 1) hj,
        ihj (by omega),
        ihi (by omega) j (by omega),
        List.take_succ, List.take_succ,
        List.getElem?_eq_getElem hi1, List.getElem?_eq_getElem hj1]
      simp only [Option.toList_some]
      rw [levRef_snoc]
      rw [List.getD_eq_getElem s1 ' ' hi1, List.getD_eq_getElem s2 ' ' hj1]

/-- `MemoryProcessor.levenshteinDistance` computes the reference Levenshtein
distance. -/
theorem levenshteinDistance_eq_levRef (s1 s2 : String) :
    levenshteinDistance s1 s2 = levRef s1.toList s2.toList := by
  have hl1 : s1.length = s1.toList.length := rfl
  have hl2 : s2.length = s2.toList.length := rfl
  simp only [levenshteinDistance]
  by_cases h1 : s1.length = 0
  · have e1 : s1.toList = [] := by
      have h1' : s1.toList.length = 0 := by omega
      exact List.length_eq_zero.mp h1'
    rw [if_pos h1, e1, levRef_nil_left, hl2]
  · by_cases h2 : s2.length = 0
    · have e2 : s2.toList = [] := by
        have h2' : s2.toList.length = 0 := by omega
        exact List.length_eq_zero.mp h2'
      rw [if_neg h1, if_pos h2, e2, levRef_nil_right, hl1]
    · rw [if_neg h1, if_neg h2, hl1, hl2,
        levMat_eq_levRef s1.toList s2.toList _ le_rfl _ le_rfl,
        List.take_length, List.take_length]

end MemoryProcessor

namespace SearchEngine

theorem levMatAux_eq (s1 s2 : List Char) : ∀ f i j,
    levMatAux s1 s2 f i j = MemoryProcessor.levMatAux s1 s2 f i j := by
  intro f
  induction f with
  | zero =>
    intro i j
    match i, j with
    | 0, j => simp [levMatAux, MemoryProcessor.levMatAux]
    | i + 1, 0 => simp [levMatAux, MemoryProcessor.levMatAux]
    | i + 1, j + 1 => simp [levMatAux, MemoryProcessor.levMatAux]
  | succ f ihf =>
    intro i j
    match i, j with
    | 0, j => simp [levMatAux, MemoryProcessor.levMatAux]
    | i + 1, 0 => simp [levMatAux, MemoryProcessor.levMatAux]
    | i + 1, j + 1 =>
      simp only [levMatAux, MemoryProcessor.levMatAux]
      rw [ihf i (j + 1), ihf (i + 1) j, ihf i j]

theorem levMat_eq (s1 s2 : List Char) : ∀ i j,
    levMat s1 s2 i j = MemoryProcessor.levMat s1 s2 i j := by
  intro i j
  exact levMatAux_eq s1 s2 (i + j) i j

theorem levenshteinDistance_eq (s1 s2 : String) :
    levenshteinDistance s1 s2 = MemoryProcessor.levenshteinDistance s1 s2 := by
  unfold levenshteinDistance MemoryProcessor.levenshteinDistance
  simp only [levMat_eq]

end SearchEngine

theorem mapSet_of_fresh (entities : List Entity) (e : Entity)
    (h : ∀ x ∈ entities, x.id ≠ e.id) : mapSet entities e = entities ++ [e] := by
  unfold mapSet
  have hany : entities.any (fun x => x.id == e.id) = false := by
    rw [List.any_eq_false]
    intro x hx
    simpa using h x hx
  rw [hany]
  simp

theorem entitiesGet_mapSet_self (entities : List Entity) (e : Entity) :
    (entitiesGet (mapSet entities e) e.id).isSome := by
  unfold mapSet entitiesGet
  by_cases hany : entities.any (fun x => x.id == e.id)
  · rw [if_pos hany, List.find?_isSome]
    rw [List.any_eq_true] at hany
    obtain ⟨x, hx, hxe⟩ := hany
    refine ⟨if x.id == e.id then e else x, List.mem_map.mpr ⟨x, hx, rfl⟩, ?_⟩
    rw [hxe]
    simp
  · rw [if_neg hany, List.find?_isSome]
    exact ⟨e, by simp, by simp⟩

theorem findExistingEntity_mem (entities : List Entity) (key : String)
    (t : EntityType) (id : EntityId)
    (h : MemoryProcessor.findExistingEntity entities key t = some id) :
    ∃ e ∈ entities, e.id = id := by
  unfold MemoryProcessor.findExistingEntity at h
  cases hex : entities.find? (fun e => e.type == t && e.normalizedKey == key) with
  | some e =>
    rw [hex] at h
    cases h
    exact ⟨e, List.mem_of_find?_eq_some hex, rfl⟩
  | none =>
    rw [hex] at h
    by_cases hlen : key.length > 5
    · rw [if_pos hlen] at h
      cases hf : entities.find? (fun e => e.type == t &&
          decide (MemoryProcessor.levenshteinDistance e.normalizedKey key ≤ 2)) with
      | some e =>
        rw [hf] at h
        simp only [Option.map_some] at h
        cases h
        exact ⟨e, List.mem_of_find?_eq_some hf, rfl⟩
      | none =>
        rw [hf] at h
        simp at h
    · rw [if_neg hlen] at h
      cases h

/-- Claim C1: `getOrCreateEntity` implements exactly the resolution the spec
describes — exact `normalizedKey` match on a same-type entity first (no entity
created), otherwise for keys longer than 5 the first same-type entity within
Levenshtein distance ≤ 2, otherwise a brand-new entity with `occurrences = 0`
and `firstSeen = lastSeen = timestamp`. The freshness hypothesis reflects that
the `Date.now()`-based nonce of a created id never collides with an existing
one. -/
theorem claim_C1 (entities : List Entity) (counter : Nat) (extracted : Extracted)
    (convId : String) (timestamp : ℚ)
    (hfresh : ∀ x ∈ entities, x.id.nonce < counter) :
    MemoryProcessor.getOrCreateEntity entities counter extracted convId timestamp =
      resolveSpec entities counter extracted timestamp ∧
    (MemoryProcessor.mkNewEntity extracted
        (MemoryProcessor.normalizeEntityName extracted.name) timestamp
        counter).occurrences = 0 ∧
    (MemoryProcessor.mkNewEntity extracted
        (MemoryProcessor.normalizeEntityName extracted.name) timestamp
        counter).firstSeen = timestamp ∧
    (MemoryProcessor.mkNewEntity extracted
        (MemoryProcessor.normalizeEntityName extracted.name) timestamp
        counter).lastSeen = timestamp := by
  refine ⟨?_, rfl, rfl, rfl⟩
  have hpred : (fun e : Entity => e.type == extracted.type &&
      decide (MemoryProcessor.levenshteinDistance e.normalizedKey
        (MemoryProcessor.normalizeEntityName extracted.name) ≤ 2)) =
      (fun e : Entity => e.type == extracted.type &&
      decide (levRef e.normalizedKey.toList
        (MemoryProcessor.normalizeEntityName extracted.name).toList ≤ 2)) := by
    funext e
    rw [MemoryProcessor.levenshteinDistance_eq_levRef]
  have hfresh2 : ∀ x ∈ entities, x.id ≠
      (MemoryProcessor.mkNewEntity extracted
        (MemoryProcessor.normalizeEntityName extracted.name) timestamp
        counter).id := by
    intro x hx heq
    have hlt := hfresh x hx
    rw [heq] at hlt
    simp [MemoryProcessor.mkNewEntity] at hlt
  simp only [MemoryProcessor.getOrCreateEntity, resolveSpec,
    MemoryProcessor.findExistingEntity]
  cases hex : entities.find? (fun e => e.type == extracted.type &&
      e.normalizedKey == MemoryProcessor.normalizeEntityName extracted.name) with
  | some e => simp [hex]
  | none =>
    simp only [hex, hpred]
    by_cases hlen : (MemoryProcessor.normalizeEntityName extracted.name).length > 5
    · cases hf : entities.find? (fun e : Entity => e.type == extracted.type &&
          decide (levRef e.normalizedKey.toList
            (MemoryProcessor.normalizeEntityName extracted.name).toList ≤ 2)) with
      | some e => simp [hf, hlen]
      | none =>
        simp only [hf, hlen, if_true, eq_self_iff_true, Option.map_none]
        rw [mapSet_of_fresh _ _ hfresh2]
        rfl
    · simp only [hlen, if_false, eq_self_iff_true, Option.map_none]
      rw [mapSet_of_fresh _ _ hfresh2]

/-- Witness for claim C1 at a concrete input (empty map, fresh counter). -/
theorem claim_C1_witness :
    MemoryProcessor.getOrCreateEntity [] 0
        ⟨EntityType.person, "John Smith", none, "met John Smith"⟩ "c1" 0 =
      resolveSpec [] 0
        ⟨EntityType.person, "John Smith", none, "met John Smith"⟩ 0 :=
  (claim_C1 [] 0 ⟨EntityType.person, "John Smith", none, "met John Smith"⟩
    "c1" 0 (by simp)).1

/-- Claim C7: both `levenshteinDistance` implementations (processor and search
engine) compute the reference recursive Levenshtein distance with unit costs,
and the two implementations are equal as functions. -/
theorem claim_C7 (s1 s2 : String) :
    MemoryProcessor.levenshteinDistance s1 s2 = levRef s1.toList s2.toList ∧
    SearchEngine.levenshteinDistance s1 s2 = levRef s1.toList s2.toList ∧
    SearchEngine.levenshteinDistance s1 s2 =
      MemoryProcessor.levenshteinDistance s1 s2 := by
  refine ⟨MemoryProcessor.levenshteinDistance_eq_levRef s1 s2, ?_, ?_⟩ <;>
    rw [SearchEngine.levenshteinDistance_eq]
  exact MemoryProcessor.levenshteinDistance_eq_levRef s1 s2

/-- The id returned by `getOrCreateEntity` is always a key of the entity map
it returns. -/
theorem getOrCreateEntity_get_isSome (entities : List Entity) (counter : Nat)
    (extracted : Extracted) (convId : String) (timestamp : ℚ) :
    (entitiesGet
      (MemoryProcessor.getOrCreateEntity entities counter extracted convId
        timestamp).2.1
      (MemoryProcessor.getOrCreateEntity entities counter extracted convId
        timestamp).1).isSome := by
  unfold MemoryProcessor.getOrCreateEntity
  cases hfind : MemoryProcessor.findExistingEntity entities
      (MemoryProcessor.normalizeEntityName extracted.name) extracted.type with
  | some id =>
    obtain ⟨e, he, heid⟩ := findExistingEntity_mem entities _ _ id hfind
    simp only [hfind, entitiesGet, List.find?_isSome]
    exact ⟨e, he, by simp [heid]⟩
  | none =>
    simp only [hfind]
    exact entitiesGet_mapSet_self entities _

theorem idIn_mapSet (es : List Entity) (e : Entity) (id : EntityId)
    (h : idIn es id) : idIn (mapSet es e) id := by
  obtain ⟨w, hw, hid⟩ := h
  unfold mapSet
  by_cases hany : es.any (fun x => x.id == e.id)
  · rw [if_pos hany]
    by_cases hwe : w.id = e.id
    · exact ⟨e, List.mem_map.mpr ⟨w, hw, by simp [hwe]⟩, by rw [← hwe, hid]⟩
    · exact ⟨w, List.mem_map.mpr ⟨w, hw, by simp [hwe]⟩, hid⟩
  · rw [if_neg hany]
    exact ⟨w, List.mem_append_left _ hw, hid⟩

theorem idIn_mapSet_self (es : List Entity) (e : Entity) :
    idIn (mapSet es e) e.id := by
  unfold mapSet
  by_cases hany : es.any (fun x => x.id == e.id)
  · rw [if_pos hany, List.any_eq_true] at *
    obtain ⟨x, hx, hxe⟩ := hany
    refine ⟨e, List.mem_map.mpr ⟨x, hx, ?_⟩, rfl⟩
    simp at hxe
    simp [hxe]
  · rw [if_neg hany]
    exact ⟨e, List.mem_append_right _ (by simp), rfl⟩

theorem entitiesGet_some_id (es : List Entity) (id : EntityId) (e : Entity)
    (h : entitiesGet es id = some e) : e ∈ es ∧ e.id = id := by
  unfold entitiesGet at h
  refine ⟨List.mem_of_find?_eq_some h, ?_⟩
  have := List.find?_some h
  simpa using this

/-- The per-candidate step of `processConversation` can only grow the set of
ids present in the live entity map. -/
theorem processExtractedStep_mono (convId : String) (timestamp : ℚ)
    (acc : List Entity × List EntityId × Nat) (x : Extracted) (id : EntityId)
    (h : idIn acc.1 id) :
    idIn (processExtractedStep convId timestamp acc x).1 id := by
  unfold processExtractedStep MemoryProcessor.getOrCreateEntity
  cases hfind : MemoryProcessor.findExistingEntity acc.1
      (MemoryProcessor.normalizeEntityName x.name) x.type with
  | some eid =>
    simp only [hfind]
    cases hget : entitiesGet acc.1 eid with
    | some entity => simp only [hget]; exact idIn_mapSet _ _ _ h
    | none => simpa only [hget] using h
  | none =>
    simp only [hfind]
    cases hget : entitiesGet
        (mapSet acc.1 (MemoryProcessor.mkNewEntity x
          (MemoryProcessor.normalizeEntityName x.name) timestamp acc.2.2))
        (MemoryProcessor.mkNewEntity x
          (MemoryProcessor.normalizeEntityName x.name) timestamp acc.2.2).id with
    | some entity =>
      simp only [hget]
      exact idIn_mapSet _ _ _ (idIn_mapSet _ _ _ h)
    | none => simpa only [hget] using idIn_mapSet _ _ _ h

/-- After the step, every id recorded so far (including the freshly appended
one) is a key of the live entity map. -/
theorem processExtractedStep_ids (convId : String) (timestamp : ℚ)
    (acc : List Entity × List EntityId × Nat) (x : Extracted)
    (h : ∀ id ∈ acc.2.1, idIn acc.1 id) :
    ∀ id ∈ (processExtractedStep convId timestamp acc x).2.1,
      idIn (processExtractedStep convId timestamp acc x).1 id := by
  intro id hid
  have hres : (processExtractedStep convId timestamp acc x).2.1 =
      acc.2.1 ++ [(MemoryProcessor.getOrCreateEntity acc.1 acc.2.2 x convId
        timestamp).1] := by
    unfold processExtractedStep
    cases hget : entitiesGet
        (MemoryProcessor.getOrCreateEntity acc.1 acc.2.2 x convId timestamp).2.1
        (MemoryProcessor.getOrCreateEntity acc.1 acc.2.2 x convId timestamp).1 with
    | some entity => simp [hget]
    | none => simp [hget]
  rw [hres] at hid
  rcases List.mem_append.mp hid with hold | hnew
  · -- an id recorded earlier: still present after this step
    have := h id hold
    exact processExtractedStep_mono convId timestamp acc x id this
  · -- the freshly appended id is in the map the step returns
    have hid2 : id = (MemoryProcessor.getOrCreateEntity acc.1 acc.2.2 x convId
        timestamp).1 := by simpa using hnew
    subst hid2
    have hsome := getOrCreateEntity_get_isSome acc.1 acc.2.2 x convId timestamp
    unfold processExtractedStep
    cases hget : entitiesGet
        (MemoryProcessor.getOrCreateEntity acc.1 acc.2.2 x convId timestamp).2.1
        (MemoryProcessor.getOrCreateEntity acc.1 acc.2.2 x convId timestamp).1 with
    | some entity =>
      simp only [hget]
      have hmem := entitiesGet_some_id _ _ _ hget
      have hid3 : ({ entity with
          conversations := if entity.conversations.contains convId then
            entity.conversations else entity.conversations ++ [convId] } :
            Entity).id = entity.id := rfl
      by_cases hc : entity.conversations.contains convId <;>
        simp only [hc, if_true, if_false, eq_self_iff_true] <;>
        · have : idIn (MemoryProcessor.getOrCreateEntity acc.1 acc.2.2 x convId
              timestamp).2.1 (MemoryProcessor.getOrCreateEntity acc.1 acc.2.2 x
              convId timestamp).1 := ⟨entity, hmem.1, hmem.2⟩
          exact idIn_mapSet _ _ _ this
    | none =>
      rw [hget] at hsome
      simp at hsome

theorem foldl_processExtractedStep_mono (convId : String) (timestamp : ℚ)
    (xs : List Extracted) : ∀ acc id, idIn acc.1 id →
    idIn (xs.foldl (processExtractedStep convId timestamp) acc).1 id := by
  induction xs with
  | nil => intro acc id h; exact h
  | cons x xs ih =>
    intro acc id h
    exact ih _ id (processExtractedStep_mono convId timestamp acc x id h)

theorem foldl_processExtractedStep_ids (convId : String) (timestamp : ℚ)
    (xs : List Extracted) : ∀ acc, (∀ id ∈ acc.2.1, idIn acc.1 id) →
    ∀ id ∈ (xs.foldl (processExtractedStep convId timestamp) acc).2.1,
      idIn (xs.foldl (processExtractedStep convId timestamp) acc).1 id := by
  induction xs with
  | nil => intro acc h; exact h
  | cons x xs ih =>
    intro acc h
    exact ih _ (processExtractedStep_ids convId timestamp acc x h)

theorem convMapSet_mem (convs : List ConvData) (c : ConvData) (x : ConvData)
    (h : x ∈ convMapSet convs c) : x = c ∨ x ∈ convs := by
  unfold convMapSet at h
  by_cases hany : convs.any (fun y => y.id == c.id)
  · rw [if_pos hany] at h
    obtain ⟨y, hy, hyx⟩ := List.mem_map.mp h
    by_cases hyc : y.id == c.id
    · rw [if_pos hyc] at hyx
      exact Or.inl hyx.symm
    · rw [if_neg hyc] at hyx
      exact Or.inr (hyx ▸ hy)
  · rw [if_neg hany] at h
    rcases List.mem_append.mp h with h1 | h2
    · exact Or.inr h1
    · exact Or.inl (by simpa using h2)

theorem processConversation_convRefsOK (now : ℚ) (st : RunState)
    (c : ConvInput) (h : ConvRefsOK st) :
    ConvRefsOK (processConversation now st c) := by
  intro cd hcd id hid
  simp only [processConversation] at hcd ⊢
  rcases convMapSet_mem _ _ _ hcd with hc | hold
  · subst hc
    simp only at hid
    exact foldl_processExtractedStep_ids _ _ _ _ (by intro i hi; simp at hi)
      id hid
  · have := h cd hold id hid
    exact foldl_processExtractedStep_mono _ _ _ _ id this

theorem processBatches_convRefsOK (now : ℚ) (convs : List ConvInput) :
    ∀ st, ConvRefsOK st → ConvRefsOK (processBatches now st convs) := by
  induction convs with
  | nil => intro st h; exact h
  | cons c cs ih =>
    intro st h
    exact ih _ (processConversation_convRefsOK now st c h)

theorem filterSparse_occ (k : Nat) (st : RunState) :
    ∀ e ∈ (filterSparseEntities k st).entities, k ≤ e.occurrences := by
  intro e he
  simp only [filterSparseEntities] at he
  obtain ⟨e1, he1, rfl⟩ := List.mem_map.mp he
  have := List.of_mem_filter he1
  simp at this
  simpa using this

theorem filterSparse_links (k : Nat) (st : RunState) :
    ∀ e ∈ (filterSparseEntities k st).entities, ∀ l ∈ e.links,
      idIn (filterSparseEntities k st).entities l := by
  intro e he l hl
  simp only [filterSparseEntities] at he hl ⊢
  obtain ⟨e1, he1, rfl⟩ := List.mem_map.mp he
  simp only at hl
  have hpred := List.of_mem_filter hl
  rw [List.any_eq_true] at hpred
  obtain ⟨x, hx, hxl⟩ := hpred
  refine ⟨{ x with links := x.links.filter (fun l =>
    (st.entities.filter (fun e => !decide (e.occurrences < k))).any
      (fun y => y.id == l)) }, List.mem_map.mpr ⟨x, hx, rfl⟩, by simpa using hxl⟩

theorem foldFilterConvs_mem (sparse : List Entity) :
    ∀ (R : EntityId → Prop) (cs : List ConvData),
    (∀ c ∈ cs, ∀ id ∈ c.entities, R id) →
    ∀ c ∈ sparse.foldl (fun cs e => cs.map (fun c =>
        { c with entities := c.entities.filter (fun id => id ≠ e.id) })) cs,
      ∀ id ∈ c.entities, R id ∧ ∀ s ∈ sparse, id ≠ s.id := by
  induction sparse with
  | nil =>
    intro R cs h c hc id hid
    exact ⟨h c hc id hid, by simp⟩
  | cons s0 rest ih =>
    intro R cs h c hc id hid
    have h2 : ∀ c ∈ cs.map (fun c =>
        { c with entities := c.entities.filter (fun id => id ≠ s0.id) }),
        ∀ id ∈ c.entities, R id ∧ id ≠ s0.id := by
      intro c1 hc1 id1 hid1
      obtain ⟨c0, hc0, rfl⟩ := List.mem_map.mp hc1
      simp only at hid1
      have hmem := List.mem_of_mem_filter hid1
      have hpred := List.of_mem_filter hid1
      refine ⟨h c0 hc0 id1 hmem, by simpa using hpred⟩
    have h3 := ih (fun id => R id ∧ id ≠ s0.id) _ h2 c hc id hid
    refine ⟨h3.1.1, ?_⟩
    intro s hs
    rcases List.mem_cons.mp hs with rfl | hrest
    · exact h3.1.2
    · exact h3.2 s hrest

theorem filterSparse_convRefsOK (k : Nat) (st : RunState)
    (h : ConvRefsOK st) : ConvRefsOK (filterSparseEntities k st) := by
  intro c hc id hid
  simp only [filterSparseEntities] at hc ⊢
  have h3 := foldFilterConvs_mem _ (idIn st.entities) st.conversationEntities
    h c hc id hid
  obtain ⟨⟨e, he, heid⟩, hne⟩ := h3
  by_cases hocc : e.occurrences < k
  · exact absurd heid.symm
      (hne e (List.mem_filter.mpr ⟨he, by simpa using hocc⟩))
  · have he1 : e ∈ st.entities.filter (fun e => !decide (e.occurrences < k)) :=
      List.mem_filter.mpr ⟨he, by simpa using hocc⟩
    refine ⟨{ e with links := e.links.filter (fun l =>
      (st.entities.filter (fun e => !decide (e.occurrences < k))).any
        (fun y => y.id == l)) }, List.mem_map.mpr ⟨e, he1, rfl⟩, heid⟩

theorem linkStep_idIn (es : List Entity) (a b id : EntityId)
    (h : idIn es id) : idIn (linkStep es a b) id := by
  obtain ⟨e, he, heid⟩ := h
  unfold linkStep
  cases hga : entitiesGet es a with
  | none => exact ⟨e, he, heid⟩
  | some ea =>
    cases hgb : entitiesGet es b with
    | none => exact ⟨e, he, heid⟩
    | some eb =>
      refine ⟨_, List.mem_map.mpr ⟨_, List.mem_map.mpr ⟨e, he, rfl⟩, rfl⟩, ?_⟩
      have key : ∀ (x y : EntityId) (e1 : Entity),
          (if e1.id == x then (if e1.links.contains y then e1
            else { e1 with links := e1.links ++ [y] }) else e1).id = e1.id := by
        intro x y e1
        by_cases hx : (e1.id == x) = true
        · rw [if_pos hx]
          by_cases hy : e1.links.contains y = true
          · rw [if_pos hy]
          · rw [if_neg hy]
        · rw [if_neg hx]
      show _ = id
      rw [key, key]
      exact heid

theorem linkStep_mem (es : List Entity) (a b : EntityId) :
    ∀ e2 ∈ linkStep es a b, ∃ e ∈ es, e2.id = e.id ∧
      e2.occurrences = e.occurrences ∧
      ∀ l ∈ e2.links, l ∈ e.links ∨ idIn es l := by
  intro e2 h2
  unfold linkStep at h2
  cases hga : entitiesGet es a with
  | none =>
    rw [hga] at h2
    exact ⟨e2, h2, rfl, rfl, fun l hl => Or.inl hl⟩
  | some ea =>
    cases hgb : entitiesGet es b with
    | none =>
      rw [hga, hgb] at h2
      exact ⟨e2, h2, rfl, rfl, fun l hl => Or.inl hl⟩
    | some eb =>
      rw [hga, hgb] at h2
      have hina : idIn es a := by
        have := entitiesGet_some_id es a ea hga
        exact ⟨ea, this.1, this.2⟩
      have hinb : idIn es b := by
        have := entitiesGet_some_id es b eb hgb
        exact ⟨eb, this.1, this.2⟩
      obtain ⟨e1, he1, rfl⟩ := List.mem_map.mp h2
      obtain ⟨e0, he0, rfl⟩ := List.mem_map.mp he1
      have keyId : ∀ (x y : EntityId) (e1 : Entity),
          (if e1.id == x then (if e1.links.contains y then e1
            else { e1 with links := e1.links ++ [y] }) else e1).id = e1.id := by
        intro x y e1
        by_cases hx : (e1.id == x) = true
        · rw [if_pos hx]
          by_cases hy : e1.links.contains y = true
          · rw [if_pos hy]
          · rw [if_neg hy]
        · rw [if_neg hx]
      have keyOcc : ∀ (x y : EntityId) (e1 : Entity),
          (if e1.id == x then (if e1.links.contains y then e1
            else { e1 with links := e1.links ++ [y] }) else e1).occurrences
            = e1.occurrences := by
        intro x y e1
        by_cases hx : (e1.id == x) = true
        · rw [if_pos hx]
          by_cases hy : e1.links.contains y = true
          · rw [if_pos hy]
          · rw [if_neg hy]
        · rw [if_neg hx]
      have keyLinks : ∀ (x y : EntityId) (e1 : Entity) (l : EntityId),
          l ∈ (if e1.id == x then (if e1.links.contains y then e1
            else { e1 with links := e1.links ++ [y] }) else e1).links →
            l ∈ e1.links ∨ l = y := by
        intro x y e1 l hl
        by_cases hx : (e1.id == x) = true
        · rw [if_pos hx] at hl
          by_cases hy : e1.links.contains y = true
          · rw [if_pos hy] at hl
            exact Or.inl hl
          · rw [if_neg hy] at hl
            rcases List.mem_append.mp hl with h5 | h5
            · exact Or.inl h5
            · exact Or.inr (List.mem_singleton.mp h5)
        · rw [if_neg hx] at hl
          exact Or.inl hl
      refine ⟨e0, he0, ?_, ?_, ?_⟩
      · show _ = e0.id
        rw [keyId, keyId]
      · show _ = e0.occurrences
        rw [keyOcc, keyOcc]
      · intro l hl
        rcases keyLinks _ _ _ _ hl with h5 | h5
        · rcases keyLinks _ _ _ _ h5 with h6 | h6
          · exact Or.inl h6
          · exact Or.inr (h6 ▸ hinb)
        · exact Or.inr (h5 ▸ hina)

theorem linkStep_entitiesOK (k : Nat) (es : List Entity) (a b : EntityId)
    (h : EntitiesOK k es) : EntitiesOK k (linkStep es a b) := by
  constructor
  · intro e2 h2
    obtain ⟨e, he, _, hocc, _⟩ := linkStep_mem es a b e2 h2
    rw [hocc]
    exact h.1 e he
  · intro e2 h2 l hl
    obtain ⟨e, he, _, _, hlinks⟩ := linkStep_mem es a b e2 h2
    rcases hlinks l hl with h3 | h3
    · exact linkStep_idIn es a b l (h.2 e he l h3)
    · exact linkStep_idIn es a b l h3

theorem foldPairs_entitiesOK (k : Nat) (pairs : List (EntityId × EntityId)) :
    ∀ es, EntitiesOK k es →
      EntitiesOK k (pairs.foldl (fun es ab => linkStep es ab.1 ab.2) es) := by
  induction pairs with
  | nil => intro es h; exact h
  | cons p ps ih =>
    intro es h
    exact ih _ (linkStep_entitiesOK k es p.1 p.2 h)

theorem foldPairs_idIn (pairs : List (EntityId × EntityId)) :
    ∀ es id, idIn es id →
      idIn (pairs.foldl (fun es ab => linkStep es ab.1 ab.2) es) id := by
  induction pairs with
  | nil => intro es id h; exact h
  | cons p ps ih =>
    intro es id h
    exact ih _ id (linkStep_idIn es p.1 p.2 id h)

theorem foldConvs_entitiesOK (k : Nat) (convs : List ConvData) :
    ∀ es, EntitiesOK k es →
      EntitiesOK k (convs.foldl (fun es c =>
        (allOrderedPairs c.entities).foldl
          (fun es ab => linkStep es ab.1 ab.2) es) es) := by
  induction convs with
  | nil => intro es h; exact h
  | cons c cs ih =>
    intro es h
    exact ih _ (foldPairs_entitiesOK k _ es h)

theorem foldConvs_idIn (convs : List ConvData) :
    ∀ es id, idIn es id →
      idIn (convs.foldl (fun es c =>
        (allOrderedPairs c.entities).foldl
          (fun es ab => linkStep es ab.1 ab.2) es) es) id := by
  induction convs with
  | nil => intro es id h; exact h
  | cons c cs ih =>
    intro es id h
    exact ih _ id (foldPairs_idIn _ es id h)

theorem computeRelationships_entitiesOK (k : Nat) (st : RunState)
    (h : EntitiesOK k st.entities) :
    EntitiesOK k (computeRelationships st).entities := by
  simp only [computeRelationships]
  exact foldConvs_entitiesOK k st.conversationEntities st.entities h

theorem computeRelationships_convRefsOK (st : RunState)
    (h : ConvRefsOK st) : ConvRefsOK (computeRelationships st) := by
  intro c hc id hid
  simp only [computeRelationships] at hc ⊢
  exact foldConvs_idIn st.conversationEntities st.entities id (h c hc id hid)

theorem mapSet_mem (es : List Entity) (e : Entity) (x : Entity)
    (h : x ∈ mapSet es e) : x = e ∨ x ∈ es := by
  unfold mapSet at h
  by_cases hany : es.any (fun y => y.id == e.id)
  · rw [if_pos hany] at h
    obtain ⟨y, hy, hyx⟩ := List.mem_map.mp h
    by_cases hye : (y.id == e.id) = true
    · rw [if_pos hye] at hyx
      exact Or.inl hyx.symm
    · rw [if_neg hye] at hyx
      exact Or.inr (hyx ▸ hy)
  · rw [if_neg hany] at h
    rcases List.mem_append.mp h with h1 | h2
    · exact Or.inr h1
    · exact Or.inl (by simpa using h2)

theorem putAllEntities_mem (es : List Entity) :
    ∀ (stored : List Entity) (x : Entity), x ∈ putAllEntities stored es →
      x ∈ stored ∨ x ∈ es := by
  induction es with
  | nil => intro stored x h; exact Or.inl h
  | cons e rest ih =>
    intro stored x h
    rcases ih (mapSet stored e) x h with h1 | h2
    · rcases mapSet_mem stored e x h1 with rfl | h3
      · exact Or.inr (by simp)
      · exact Or.inl h3
    · exact Or.inr (List.mem_cons_of_mem _ h2)

theorem putAllEntities_idIn (es : List Entity) :
    ∀ (stored : List Entity) (id : EntityId),
      idIn stored id ∨ idIn es id → idIn (putAllEntities stored es) id := by
  induction es with
  | nil =>
    intro stored id h
    rcases h with h1 | h2
    · exact h1
    · obtain ⟨w, hw, _⟩ := h2
      exact absurd hw (List.not_mem_nil w)
  | cons e rest ih =>
    intro stored id h
    rcases h with h1 | h2
    · exact ih _ id (Or.inl (idIn_mapSet stored e id h1))
    · obtain ⟨w, hw, hid⟩ := h2
      rcases List.mem_cons.mp hw with rfl | hw2
      · exact ih _ id (Or.inl (hid ▸ idIn_mapSet_self stored w))
      · exact ih _ id (Or.inr ⟨w, hw2, hid⟩)

theorem putAllConvs_mem (cs : List ConvData) :
    ∀ (stored : List ConvData) (x : ConvData), x ∈ putAllConvs stored cs →
      x ∈ stored ∨ x ∈ cs := by
  induction cs with
  | nil => intro stored x h; exact Or.inl h
  | cons c rest ih =>
    intro stored x h
    rcases ih (convMapSet stored c) x h with h1 | h2
    · rcases convMapSet_mem stored c x h1 with rfl | h3
      · exact Or.inr (by simp)
      · exact Or.inl h3
    · exact Or.inr (List.mem_cons_of_mem _ h2)

theorem linkAdd_id (x y : EntityId) (e : Entity) :
    (linkAdd x y e).id = e.id := by
  unfold linkAdd
  by_cases hx : (e.id == x) = true
  · rw [if_pos hx]
    by_cases hy : e.links.contains y = true
    · rw [if_pos hy]
    · rw [if_neg hy]
  · rw [if_neg hx]

theorem linkAdd_mem_iff (x y : EntityId) (e : Entity) (z : EntityId) :
    z ∈ (linkAdd x y e).links ↔ z ∈ e.links ∨ (e.id = x ∧ z = y) := by
  unfold linkAdd
  by_cases hx : (e.id == x) = true
  · rw [if_pos hx]
    have hex : e.id = x := by simpa using hx
    by_cases hy : e.links.contains y = true
    · rw [if_pos hy]
      have hyy : y ∈ e.links := by simpa using hy
      constructor
      · exact Or.inl
      · rintro (h | ⟨-, rfl⟩)
        · exact h
        · exact hyy
    · rw [if_neg hy]
      show z ∈ e.links ++ [y] ↔ _
      rw [List.mem_append, List.mem_singleton]
      constructor
      · rintro (h | rfl)
        · exact Or.inl h
        · exact Or.inr ⟨hex, rfl⟩
      · rintro (h | ⟨-, rfl⟩)
        · exact Or.inl h
        · exact Or.inr rfl
  · rw [if_neg hx]
    have hex : ¬ e.id = x := by simpa using hx
    constructor
    · exact Or.inl
    · rintro (h | ⟨h1, -⟩)
      · exact h
      · exact absurd h1 hex

theorem linkStep_sym (es : List Entity) (a b : EntityId) (h : Sym es) :
    Sym (linkStep es a b) := by
  have heq : linkStep es a b = es ∨
      linkStep es a b = (es.map (linkAdd a b)).map (linkAdd b a) := by
    unfold linkStep
    cases entitiesGet es a <;> cases entitiesGet es b <;>
      first
        | exact Or.inl rfl
        | exact Or.inr rfl
  rcases heq with heq | heq
  · rw [heq]; exact h
  · rw [heq]
    intro u2 hu2 v2 hv2
    rw [List.map_map] at hu2 hv2
    obtain ⟨u, hu, rfl⟩ := List.mem_map.mp hu2
    obtain ⟨v, hv, rfl⟩ := List.mem_map.mp hv2
    have hid : ∀ e : Entity, ((linkAdd b a ∘ linkAdd a b) e).id = e.id := by
      intro e
      show (linkAdd b a (linkAdd a b e)).id = e.id
      rw [linkAdd_id, linkAdd_id]
    have hmem : ∀ (e : Entity) (z : EntityId),
        z ∈ ((linkAdd b a ∘ linkAdd a b) e).links ↔
          z ∈ e.links ∨ (e.id = a ∧ z = b) ∨ (e.id = b ∧ z = a) := by
      intro e z
      show z ∈ (linkAdd b a (linkAdd a b e)).links ↔ _
      rw [linkAdd_mem_iff, linkAdd_mem_iff, linkAdd_id]
      tauto
    rw [hid, hid, hmem, hmem]
    have h0 := h u hu v hv
    constructor
    · rintro (h1 | ⟨h1, h2⟩ | ⟨h1, h2⟩)
      · exact Or.inl (h0.mp h1)
      · exact Or.inr (Or.inr ⟨h2, h1⟩)
      · exact Or.inr (Or.inl ⟨h2, h1⟩)
    · rintro (h1 | ⟨h1, h2⟩ | ⟨h1, h2⟩)
      · exact Or.inl (h0.mpr h1)
      · exact Or.inr (Or.inr ⟨h2, h1⟩)
      · exact Or.inr (Or.inl ⟨h2, h1⟩)

theorem foldPairs_sym (pairs : List (EntityId × EntityId)) :
    ∀ es, Sym es →
      Sym (pairs.foldl (fun es ab => linkStep es ab.1 ab.2) es) := by
  induction pairs with
  | nil => intro es h; exact h
  | cons p ps ih =>
    intro es h
    exact ih _ (linkStep_sym es p.1 p.2 h)

theorem foldConvs_sym (convs : List ConvData) :
    ∀ es, Sym es →
      Sym (convs.foldl (fun es c =>
        (allOrderedPairs c.entities).foldl
          (fun es ab => linkStep es ab.1 ab.2) es) es) := by
  induction convs with
  | nil => intro es h; exact h
  | cons c cs ih =>
    intro es h
    exact ih _ (foldPairs_sym _ es h)

theorem computeRelationships_sym (st : RunState) (h : Sym st.entities) :
    Sym (computeRelationships st).entities := by
  simp only [computeRelationships]
  exact foldConvs_sym st.conversationEntities st.entities h

/-- Symmetry only depends on which entities are in the list. -/
theorem sym_of_mem (es es' : List Entity) (h : ∀ x ∈ es', x ∈ es)
    (hs : Sym es) : Sym es' :=
  fun x hx y hy => hs x (h x hx) y (h y hy)

theorem getOrCreateEntity_linksNil (es : List Entity) (c : Nat)
    (x : Extracted) (convId : String) (ts : ℚ)
    (h : ∀ e ∈ es, e.links = []) :
    ∀ e ∈ (MemoryProcessor.getOrCreateEntity es c x convId ts).2.1,
      e.links = [] := by
  intro e he
  unfold MemoryProcessor.getOrCreateEntity at he
  cases hfind : MemoryProcessor.findExistingEntity es
      (MemoryProcessor.normalizeEntityName x.name) x.type with
  | some id =>
    simp only [hfind] at he
    exact h e he
  | none =>
    simp only [hfind] at he
    rcases mapSet_mem _ _ _ he with rfl | h2
    · rfl
    · exact h e h2

theorem processExtractedStep_linksNil (convId : String) (timestamp : ℚ)
    (acc : List Entity × List EntityId × Nat) (x : Extracted)
    (h : ∀ e ∈ acc.1, e.links = []) :
    ∀ e ∈ (processExtractedStep convId timestamp acc x).1, e.links = [] := by
  intro e he
  have h1 := getOrCreateEntity_linksNil acc.1 acc.2.2 x convId timestamp h
  unfold processExtractedStep at he
  cases hget : entitiesGet
      (MemoryProcessor.getOrCreateEntity acc.1 acc.2.2 x convId timestamp).2.1
      (MemoryProcessor.getOrCreateEntity acc.1 acc.2.2 x convId timestamp).1 with
  | some entity =>
    simp only [hget] at he
    rcases mapSet_mem _ _ _ he with rfl | h2
    · have hmem := (entitiesGet_some_id _ _ _ hget).1
      have hent := h1 entity hmem
      by_cases hc : entity.conversations.contains convId <;>
        simp only [hc, if_true, if_false] <;> exact hent
    · exact h1 e h2
  | none =>
    simp only [hget] at he
    exact h1 e he

theorem processConversation_linksNil (now : ℚ) (st : RunState) (c : ConvInput)
    (h : ∀ e ∈ st.entities, e.links = []) :
    ∀ e ∈ (processConversation now st c).entities, e.links = [] := by
  simp only [processConversation]
  have haux : ∀ (xs : List Extracted) (acc : List Entity × List EntityId × Nat),
      (∀ e ∈ acc.1, e.links = []) →
      ∀ e ∈ (xs.foldl (processExtractedStep (convIdOf c)
        (jsOrNum c.create_time (jsOrNum c.update_time (now / 1000)))) acc).1,
        e.links = [] := by
    intro xs
    induction xs with
    | nil => intro acc hacc; exact hacc
    | cons y ys ih =>
      intro acc hacc
      exact ih _ (processExtractedStep_linksNil _ _ acc y hacc)
  exact haux _ _ h

theorem processBatches_linksNil (now : ℚ) (convs : List ConvInput) :
    ∀ st, (∀ e ∈ st.entities, e.links = []) →
      ∀ e ∈ (processBatches now st convs).entities, e.links = [] := by
  induction convs with
  | nil => intro st h; exact h
  | cons c cs ih =>
    intro st h
    exact ih _ (processConversation_linksNil now st c h)

theorem filterSparse_sym (k : Nat) (st : RunState)
    (h : ∀ e ∈ st.entities, e.links = []) :
    Sym (filterSparseEntities k st).entities := by
  have hnil : ∀ e ∈ (filterSparseEntities k st).entities, e.links = [] := by
    intro e he
    simp only [filterSparseEntities] at he
    obtain ⟨e1, he1, rfl⟩ := List.mem_map.mp he
    have hmem := List.mem_of_mem_filter he1
    simp only
    rw [h e1 hmem]
    rfl
  intro x hx y hy
  rw [hnil x hx, hnil y hy]
  simp

/-- Claim C8 counterexample: processing the conversation `"John Smith"`
together with the case-different conversation `"john smith"` does NOT yield a
person entity with `occurrences = 2` and both conversation ids: the person
regexes are case-sensitive (`[A-Z][a-z]+ [A-Z][a-z]+` without the `i` flag),
so the lowercase mention is never extracted; the single-occurrence entity is
then removed by the sparse filter (`minOccurrences = 2`), leaving no entities
at all. -/
theorem claim_C8_counterexample :
    (¬ ∃ e ∈ (processConversationsRun 2 0 0 emptyStore false
        [convJS1, convJSlower]).2.entities,
      e.type = EntityType.person ∧ e.occurrences = 2 ∧
        "c1" ∈ e.conversations ∧ "c2" ∈ e.conversations) ∧
    (processConversationsRun 2 0 0 emptyStore false
      [convJS1, convJSlower]).2.entities = [] := by
  constructor
  · decide
  · decide

/-- Claim C8 as amended: with both conversations mentioning `"John Smith"`
with the same capitalisation, processing yields exactly one `person` entity,
with `occurrences = 2` and both conversation ids in `conversations` (the
cross-conversation deduplication via the lowercased `normalizedKey` is what
merges the two mentions into one entity). -/
theorem claim_C8 :
    ((processConversationsRun 2 0 0 emptyStore false
        [convJS1, convJS2]).2.entities.map
      (fun e => (e.type, e.name, e.occurrences, e.conversations))) =
      [(EntityType.person, "John Smith", 2, ["c1", "c2"])] := by
  decide

/-- Claim C2 counterexample: after a run with `minOccurrences = 2` over a
single conversation mentioning `"John Smith"` once, the extracted entity is
removed by the sparse filter, yet its id remains in the (returned and
persisted) timeline entry's entity set — `filterSparseEntities` never touches
the timeline map. -/
theorem claim_C2_counterexample :
    (∃ t ∈ (processConversationsRun 2 0 0 emptyStore false
        [convJS1]).2.timeline,
      ∃ id ∈ t.entities,
        ∀ e ∈ (processConversationsRun 2 0 0 emptyStore false
          [convJS1]).2.entities, e.id ≠ id) ∧
    (∃ t ∈ (processConversationsRun 2 0 0 emptyStore false
        [convJS1]).1.timeline,
      ∃ id ∈ t.entities,
        ∀ e ∈ (processConversationsRun 2 0 0 emptyStore false
          [convJS1]).1.entities, e.id ≠ id) := by
  constructor
  · decide
  · decide

/-- Claim C2 as amended: after a processing run from a fresh store with
sparse-filter threshold `minOccurrences = k`, no entity in the returned or in
the persisted entity collection has `occurrences < k`, and no removed entity
id remains referenced by any conversation's `entities` list or by any
surviving entity's `links` — in the returned snapshot and in the persisted
store alike. The timeline part of the original claim is dropped: timeline
entries are never cleaned and can retain removed ids (see the
counterexample). -/
theorem claim_C2 (k : Nat) (now : ℚ) (c0 : Nat) (convs : List ConvInput) :
    (∀ e ∈ (processConversationsRun k now c0 emptyStore false convs).2.entities,
      k ≤ e.occurrences) ∧
    (∀ e ∈ (processConversationsRun k now c0 emptyStore false convs).2.entities,
      ∀ l ∈ e.links,
        idIn (processConversationsRun k now c0 emptyStore false
          convs).2.entities l) ∧
    (∀ c ∈ (processConversationsRun k now c0 emptyStore false
        convs).2.conversations,
      ∀ id ∈ c.entities,
        idIn (processConversationsRun k now c0 emptyStore false
          convs).2.entities id) ∧
    (∀ e ∈ (processConversationsRun k now c0 emptyStore false convs).1.entities,
      k ≤ e.occurrences) ∧
    (∀ e ∈ (processConversationsRun k now c0 emptyStore false convs).1.entities,
      ∀ l ∈ e.links,
        idIn (processConversationsRun k now c0 emptyStore false
          convs).1.entities l) ∧
    (∀ c ∈ (processConversationsRun k now c0 emptyStore false
        convs).1.conversations,
      ∀ id ∈ c.entities,
        idIn (processConversationsRun k now c0 emptyStore false
          convs).1.entities id) := by
  by_cases hlen : (filterNewConversations emptyStore convs).length = 0
  · simp only [processConversationsRun]
    rw [if_pos hlen]
    refine ⟨?_, ?_, ?_, ?_, ?_, ?_⟩ <;> intro x hx <;>
      simp [initialLiveState, emptyStore] at hx
  · have h0 : ConvRefsOK (initialLiveState false emptyStore c0) := by
      intro c hc id hid
      simp [initialLiveState] at hc
    have hok1 := processBatches_convRefsOK now
      (filterNewConversations emptyStore convs)
      (initialLiveState false emptyStore c0) h0
    have hok2 := filterSparse_convRefsOK k _ hok1
    have hok3 := computeRelationships_convRefsOK _ hok2
    have hent2 : EntitiesOK k (filterSparseEntities k (processBatches now
        (initialLiveState false emptyStore c0)
        (filterNewConversations emptyStore convs))).entities :=
      ⟨filterSparse_occ k _, filterSparse_links k _⟩
    have hent3 := computeRelationships_entitiesOK k _ hent2
    simp only [processConversationsRun, saveToDatabase]
    rw [if_neg hlen]
    refine ⟨?_, ?_, ?_, ?_, ?_, ?_⟩
    · exact hent3.1
    · exact hent3.2
    · exact fun c hc id hid => hok3 c hc id hid
    · intro e he
      rcases putAllEntities_mem _ _ _ he with h1 | h2
      · simp [emptyStore] at h1
      · exact hent3.1 e h2
    · intro e he l hl
      rcases putAllEntities_mem _ _ _ he with h1 | h2
      · simp [emptyStore] at h1
      · exact putAllEntities_idIn _ _ l (Or.inr (hent3.2 e h2 l hl))
    · intro c hc id hid
      rcases putAllConvs_mem _ _ _ hc with h1 | h2
      · simp [emptyStore] at h1
      · exact putAllEntities_idIn _ _ id (Or.inr (hok3 c h2 id hid))

/-- Claim C5: at the end of every processing run (from a fresh store, in
either resume mode), the link relation of both the returned and the persisted
entity collection is symmetric: `A.links` contains `B.id` iff `B.links`
contains `A.id`. `processConversation` leaves `links` empty,
`filterSparseEntities` preserves that, and each `linkStep` of
`computeRelationships` pushes either both of `a ↔ b` or neither. -/
theorem claim_C5 (k : Nat) (now : ℚ) (c0 : Nat) (resumeMode : Bool)
    (convs : List ConvInput) :
    (∀ x ∈ (processConversationsRun k now c0 emptyStore resumeMode
        convs).2.entities,
      ∀ y ∈ (processConversationsRun k now c0 emptyStore resumeMode
        convs).2.entities, (y.id ∈ x.links ↔ x.id ∈ y.links)) ∧
    (∀ x ∈ (processConversationsRun k now c0 emptyStore resumeMode
        convs).1.entities,
      ∀ y ∈ (processConversationsRun k now c0 emptyStore resumeMode
        convs).1.entities, (y.id ∈ x.links ↔ x.id ∈ y.links)) := by
  have hinit : ∀ e ∈ (initialLiveState resumeMode emptyStore c0).entities,
      e.links = [] := by
    cases resumeMode <;> intro e he <;>
      simp [initialLiveState, emptyStore] at he
  by_cases hlen : (filterNewConversations emptyStore convs).length = 0
  · simp only [processConversationsRun]
    rw [if_pos hlen]
    constructor
    · intro x hx y hy
      rw [hinit x hx, hinit y hy]
      simp
    · intro x hx y hy
      simp [emptyStore] at hx
  · have hnil1 := processBatches_linksNil now
      (filterNewConversations emptyStore convs)
      (initialLiveState resumeMode emptyStore c0) hinit
    have hsym2 := filterSparse_sym k _ hnil1
    have hsym3 := computeRelationships_sym _ hsym2
    have hsymStore : Sym (putAllEntities emptyStore.entities
        (computeRelationships (filterSparseEntities k (processBatches now
          (initialLiveState resumeMode emptyStore c0)
          (filterNewConversations emptyStore convs)))).entities) := by
      apply sym_of_mem _ _ _ hsym3
      intro x hx
      rcases putAllEntities_mem _ _ _ hx with h1 | h2
      · exact absurd h1 (by simp [emptyStore])
      · exact h2
    simp only [processConversationsRun, saveToDatabase]
    rw [if_neg hlen]
    exact ⟨fun x hx y hy => hsym3 x hx y hy,
      fun x hx y hy => hsymStore x hx y hy⟩

/-- Claim C6: the culled node set contains a node iff its `visible` flag is
not `false` and its world coordinates lie in the view rectangle expanded by
the margin; the culled edge set contains exactly the edges whose both endpoint
ids belong to culled nodes; and after `filterByType`, a node passes the cull
iff the type filter keeps it (empty filter or matching type) and it lies in
the expanded rectangle. -/
theorem claim_C6 (nodes : List RNode) (edges : List REdge) (vp : Viewport)
    (width height : ℚ) :
    (∀ n : RNode, n ∈ (updateVisibleElements nodes edges vp width height).1 ↔
      (n ∈ nodes ∧ n.visible ≠ some false ∧
        -vp.offsetX / vp.scale - 100 ≤ n.x ∧
        n.x ≤ (width - vp.offsetX) / vp.scale + 100 ∧
        -vp.offsetY / vp.scale - 100 ≤ n.y ∧
        n.y ≤ (height - vp.offsetY) / vp.scale + 100)) ∧
    (∀ e : REdge, e ∈ (updateVisibleElements nodes edges vp width height).2 ↔
      (e ∈ edges ∧
        (∃ n ∈ (updateVisibleElements nodes edges vp width height).1,
          n.id = e.source) ∧
        (∃ n ∈ (updateVisibleElements nodes edges vp width height).1,
          n.id = e.target))) ∧
    (∀ types : List String,
      ∀ n ∈ filterByType types nodes,
        (n ∈ (updateVisibleElements (filterByType types nodes) edges vp width
            height).1 ↔
          ((types = [] ∨ n.type ∈ types) ∧
            -vp.offsetX / vp.scale - 100 ≤ n.x ∧
            n.x ≤ (width - vp.offsetX) / vp.scale + 100 ∧
            -vp.offsetY / vp.scale - 100 ≤ n.y ∧
            n.y ≤ (height - vp.offsetY) / vp.scale + 100))) := by
  refine ⟨?_, ?_, ?_⟩
  · intro n
    simp only [updateVisibleElements, List.mem_filter, decide_eq_true_eq]
  · intro e
    have hc : ∀ (ns : List RNode) (x : EntityId),
        ((ns.map (fun n => n.id)).contains x = true) ↔ ∃ n ∈ ns, n.id = x := by
      intro ns x
      constructor
      · intro h
        obtain ⟨n, hn, hid⟩ := List.mem_map.mp (List.elem_iff.mp h)
        exact ⟨n, hn, hid⟩
      · rintro ⟨n, hn, rfl⟩
        exact List.elem_iff.mpr (List.mem_map.mpr ⟨n, hn, rfl⟩)
    simp only [updateVisibleElements, List.mem_filter, Bool.and_eq_true]
    rw [hc, hc]
    simp only [List.mem_filter]
  · intro types n hn
    have hvis : n.visible =
        some (decide (types.length = 0) || types.contains n.type) := by
      simp only [filterByType, List.mem_map] at hn
      obtain ⟨m, hm, rfl⟩ := hn
      rfl
    simp only [updateVisibleElements, List.mem_filter, decide_eq_true_eq]
    constructor
    · rintro ⟨-, h2, h3⟩
      refine ⟨?_, h3⟩
      rw [hvis] at h2
      have hb : (decide (types.length = 0) || types.contains n.type) = true := by
        cases hx : (decide (types.length = 0) || types.contains n.type)
        · rw [hx] at h2
          exact absurd rfl h2
        · rfl
      have hb2 : types = [] ∨ n.type ∈ types := by
        simpa [List.length_eq_zero] using hb
      exact hb2
    · rintro ⟨h2, h3⟩
      refine ⟨hn, ?_, h3⟩
      rw [hvis]
      intro hcontra
      injection hcontra with hb
      rcases h2 with h6 | h6
      · subst h6
        simp at hb
      · rw [(by simpa using h6 : types.contains n.type = true)] at hb
        simp at hb

/-- Claim C9: searching the store whose only indexed entity is named
`"Python"` with the query `"pythom"` returns that entity (for every value of
the `Math.log`/`Date.now` parameters, which only influence scores): the exact
index lookup misses, but the fuzzy word-match accepts `"python"` at
Levenshtein distance 1 ≤ min(2, ⌊6 / 3⌋) = 2. -/
theorem claim_C9 (logFn : Nat → ℚ) (nowSec : ℚ) :
    (SearchEngine.search storePython logFn nowSec "pythom").map
      (fun r => r.entity.name) = ["Python"] ∧
    SearchEngine.levenshteinDistance "python" "pythom" = 1 ∧
    min 2 ("pythom".length / 3) = 2 := by
  refine ⟨rfl, by decide, rfl⟩

/-- Claim C3: running the incremental processor a second time on the same
input (after a full incremental run from the pristine state) is a no-op: the
persistent state — store collections, checkpoint and history — is returned
unchanged, the in-memory entity/conversation maps come back as loaded from
the store, and the terminal progress event of the second run carries
`alreadyComplete = true`. -/
theorem claim_C3 (minOccurrences : Nat) (now now2 : ℚ) (c0 c1 : Nat)
    (convs : List ConvInput) :
    (chunkedProcess minOccurrences now2 c1
        (chunkedProcess minOccurrences now c0 pristineState
          (ChunkMode.incremental none) convs).1
        (ChunkMode.incremental none) convs).1 =
      (chunkedProcess minOccurrences now c0 pristineState
        (ChunkMode.incremental none) convs).1 ∧
    (chunkedProcess minOccurrences now2 c1
        (chunkedProcess minOccurrences now c0 pristineState
          (ChunkMode.incremental none) convs).1
        (ChunkMode.incremental none) convs).2.2 = true ∧
    (chunkedProcess minOccurrences now2 c1
        (chunkedProcess minOccurrences now c0 pristineState
          (ChunkMode.incremental none) convs).1
        (ChunkMode.incremental none) convs).2.1.entities =
      (chunkedProcess minOccurrences now c0 pristineState
        (ChunkMode.incremental none) convs).1.store.entities ∧
    (chunkedProcess minOccurrences now2 c1
        (chunkedProcess minOccurrences now c0 pristineState
          (ChunkMode.incremental none) convs).1
        (ChunkMode.incremental none) convs).2.1.conversations =
      (chunkedProcess minOccurrences now c0 pristineState
        (ChunkMode.incremental none) convs).1.store.conversations := by
  have hsel1 : filterNewConversations emptyStore convs = convs := by
    simp [filterNewConversations, emptyStore]
  have hck : (chunkedProcess minOccurrences now c0 pristineState
      (ChunkMode.incremental none) convs).1.processedUpToIndex =
      convs.length := by
    simp only [chunkedProcess, pristineState]
    rw [List.drop_zero, hsel1]
    by_cases h : convs.length = 0
    · rw [if_pos h]
      simp [h]
    · rw [if_neg h]
      simp
  have hsecond : chunkedProcess minOccurrences now2 c1
      (chunkedProcess minOccurrences now c0 pristineState
        (ChunkMode.incremental none) convs).1
      (ChunkMode.incremental none) convs =
      ((chunkedProcess minOccurrences now c0 pristineState
          (ChunkMode.incremental none) convs).1,
        ⟨(chunkedProcess minOccurrences now c0 pristineState
            (ChunkMode.incremental none) convs).1.store.entities,
          (chunkedProcess minOccurrences now c0 pristineState
            (ChunkMode.incremental none) convs).1.store.conversations,
          buildTimeline []⟩, true) := by
    generalize hS : (chunkedProcess minOccurrences now c0 pristineState
      (ChunkMode.incremental none) convs).1 = S at hck ⊢
    simp only [chunkedProcess]
    rw [hck, List.drop_length]
    simp [filterNewConversations]
  refine ⟨?_, ?_, ?_, ?_⟩
  · rw [hsecond]
  · rw [hsecond]
  · rw [hsecond]
  · rw [hsecond]

/-- Claim C4: invoking the processor in explicit-range mode with
`{start: 0, end: 2}` on a 5-conversation input processes exactly the
conversations at indices 0 and 1 (the result coincides with processing the
two-conversation input, whatever the prior state), leaves the incremental
checkpoint `processedUpToIndex` untouched, and appends exactly one
history-log entry, with `conversationsProcessed = 2` and range `[0, 2)`. -/
theorem claim_C4 (minOccurrences : Nat) (now : ℚ) (c0 : Nat)
    (st : ChunkedState) (a b c d e : ConvInput) :
    chunkedProcess minOccurrences now c0 st (ChunkMode.rangeMode 0 2)
        [a, b, c, d, e] =
      chunkedProcess minOccurrences now c0 st (ChunkMode.rangeMode 0 2)
        [a, b] ∧
    (chunkedProcess minOccurrences now c0 st (ChunkMode.rangeMode 0 2)
        [a, b, c, d, e]).1.processedUpToIndex = st.processedUpToIndex ∧
    (chunkedProcess minOccurrences now c0 st (ChunkMode.rangeMode 0 2)
        [a, b, c, d, e]).1.history =
      st.history ++ [⟨0, 2, 2,
        (chunkedProcess minOccurrences now c0 st (ChunkMode.rangeMode 0 2)
          [a, b, c, d, e]).2.1.entities.length, now⟩] :=
  ⟨rfl, rfl, rfl⟩

/-- Claim C10: `getOrCreateEntity` always returns an id that is a key of the
live entity map it returns — either a found existing entity's id or the id of
the entity it just inserted — so the `entities.get(entityId)` lookup right
after it in `processConversation` always succeeds. -/
theorem claim_C10 (entities : List Entity) (counter : Nat)
    (extracted : Extracted) (convId : String) (timestamp : ℚ) :
    (entitiesGet
      (MemoryProcessor.getOrCreateEntity entities counter extracted convId
        timestamp).2.1
      (MemoryProcessor.getOrCreateEntity entities counter extracted convId
        timestamp).1).isSome :=
  getOrCreateEntity_get_isSome entities counter extracted convId timestamp

end MemoryVault
